import Mathlib

/-!
Verification of the Wizarr Home Assistant integration's data
reconciliation layer (custom_components/wizarr).

The Python code is shallowly embedded: JSON/Python runtime values become
the inductive type `PyVal`; Python dict operations become association-list
operations with Python's insertion-order semantics; code paths that can
raise a runtime exception (iterating a non-iterable, calling `len` on an
unsized value, attribute access on a non-dict) return `Option`, with
`none` standing for "raises".

Modelling conventions:
- Python `bool` is kept distinct from `int` (the `bool`-is-`int`
  conflation of CPython is not exercised by the payload shapes considered
  here).
- Floating point payloads are not modelled.
- `str()`/`repr()` are modelled for scalars, lists and dicts; the repr of
  strings containing control characters is not chased beyond quote
  selection and backslash escaping.
-/

/-- A Python runtime value as produced by decoding JSON (plus the dicts
the integration builds itself, whose keys need not be strings). -/
inductive PyVal where
  | pynull : PyVal
  | pybool : Bool → PyVal
  | pyint : Int → PyVal
  | pystr : String → PyVal
  | pylist : List PyVal → PyVal
  | pydict : List (PyVal × PyVal) → PyVal
deriving Repr

open PyVal

mutual

/-- Boolean structural equality on `PyVal` (Python `==` for the value
shapes in play, with `bool` and `int` kept distinct). -/
def pyBEq : PyVal → PyVal → Bool
  | pynull, pynull => true
  | pybool a, pybool b => a == b
  | pyint a, pyint b => a == b
  | pystr a, pystr b => a == b
  | pylist xs, pylist ys => pyBEqList xs ys
  | pydict xs, pydict ys => pyBEqFields xs ys
  | _, _ => false

/-- Elementwise `pyBEq` on lists. -/
def pyBEqList : List PyVal → List PyVal → Bool
  | [], [] => true
  | x :: xs, y :: ys => pyBEq x y && pyBEqList xs ys
  | _, _ => false

/-- Entrywise `pyBEq` on dict field lists. -/
def pyBEqFields : List (PyVal × PyVal) → List (PyVal × PyVal) → Bool
  | [], [] => true
  | (k₁, v₁) :: xs, (k₂, v₂) :: ys =>
      pyBEq k₁ k₂ && pyBEq v₁ v₂ && pyBEqFields xs ys
  | _, _ => false

end

mutual

theorem pyBEq_refl : ∀ a : PyVal, pyBEq a a = true
  | pynull => rfl
  | pybool a => by simp [pyBEq]
  | pyint a => by simp [pyBEq]
  | pystr a => by simp [pyBEq]
  | pylist xs => by simp [pyBEq, pyBEqList_refl xs]
  | pydict xs => by simp [pyBEq, pyBEqFields_refl xs]

theorem pyBEqList_refl : ∀ xs : List PyVal, pyBEqList xs xs = true
  | [] => rfl
  | x :: xs => by simp [pyBEqList, pyBEq_refl x, pyBEqList_refl xs]

theorem pyBEqFields_refl : ∀ xs : List (PyVal × PyVal), pyBEqFields xs xs = true
  | [] => rfl
  | (k, v) :: xs => by
      simp [pyBEqFields, pyBEq_refl k, pyBEq_refl v, pyBEqFields_refl xs]

end

mutual

theorem pyBEq_eq : ∀ a b : PyVal, pyBEq a b = true → a = b
  | pynull, pynull, _ => rfl
  | pybool a, pybool b, h => by simpa [pyBEq] using congrArg pybool (by simpa [pyBEq] using h)
  | pyint a, pyint b, h => by
      have : a = b := by simpa [pyBEq] using h
      rw [this]
  | pystr a, pystr b, h => by
      have : a = b := by simpa [pyBEq] using h
      rw [this]
  | pylist xs, pylist ys, h => by
      have : xs = ys := pyBEqList_eq xs ys (by simpa [pyBEq] using h)
      rw [this]
  | pydict xs, pydict ys, h => by
      have : xs = ys := pyBEqFields_eq xs ys (by simpa [pyBEq] using h)
      rw [this]
  | pynull, pybool _, h => by simp [pyBEq] at h
  | pynull, pyint _, h => by simp [pyBEq] at h
  | pynull, pystr _, h => by simp [pyBEq] at h
  | pynull, pylist _, h => by simp [pyBEq] at h
  | pynull, pydict _, h => by simp [pyBEq] at h
  | pybool _, pynull, h => by simp [pyBEq] at h
  | pybool _, pyint _, h => by simp [pyBEq] at h
  | pybool _, pystr _, h => by simp [pyBEq] at h
  | pybool _, pylist _, h => by simp [pyBEq] at h
  | pybool _, pydict _, h => by simp [pyBEq] at h
  | pyint _, pynull, h => by simp [pyBEq] at h
  | pyint _, pybool _, h => by simp [pyBEq] at h
  | pyint _, pystr _, h => by simp [pyBEq] at h
  | pyint _, pylist _, h => by simp [pyBEq] at h
  | pyint _, pydict _, h => by simp [pyBEq] at h
  | pystr _, pynull, h => by simp [pyBEq] at h
  | pystr _, pybool _, h => by simp [pyBEq] at h
  | pystr _, pyint _, h => by simp [pyBEq] at h
  | pystr _, pylist _, h => by simp [pyBEq] at h
  | pystr _, pydict _, h => by simp [pyBEq] at h
  | pylist _, pynull, h => by simp [pyBEq] at h
  | pylist _, pybool _, h => by simp [pyBEq] at h
  | pylist _, pyint _, h => by simp [pyBEq] at h
  | pylist _, pystr _, h => by simp [pyBEq] at h
  | pylist _, pydict _, h => by simp [pyBEq] at h
  | pydict _, pynull, h => by simp [pyBEq] at h
  | pydict _, pybool _, h => by simp [pyBEq] at h
  | pydict _, pyint _, h => by simp [pyBEq] at h
  | pydict _, pystr _, h => by simp [pyBEq] at h
  | pydict _, pylist _, h => by simp [pyBEq] at h

theorem pyBEqList_eq : ∀ xs ys : List PyVal, pyBEqList xs ys = true → xs = ys
  | [], [], _ => rfl
  | [], _ :: _, h => by simp [pyBEqList] at h
  | _ :: _, [], h => by simp [pyBEqList] at h
  | x :: xs, y :: ys, h => by
      have h₁ : pyBEq x y = true := by
        have := h
        simp [pyBEqList, Bool.and_eq_true] at this
        exact this.1
      have h₂ : pyBEqList xs ys = true := by
        have := h
        simp [pyBEqList, Bool.and_eq_true] at this
        exact this.2
      rw [pyBEq_eq x y h₁, pyBEqList_eq xs ys h₂]

theorem pyBEqFields_eq :
    ∀ xs ys : List (PyVal × PyVal), pyBEqFields xs ys = true → xs = ys
  | [], [], _ => rfl
  | [], _ :: _, h => by simp [pyBEqFields] at h
  | _ :: _, [], h => by simp [pyBEqFields] at h
  | (k₁, v₁) :: xs, (k₂, v₂) :: ys, h => by
      have h' : (pyBEq k₁ k₂ = true ∧ pyBEq v₁ v₂ = true) ∧ pyBEqFields xs ys = true := by
        simpa [pyBEqFields, Bool.and_eq_true] using h
      rw [pyBEq_eq k₁ k₂ h'.1.1, pyBEq_eq v₁ v₂ h'.1.2, pyBEqFields_eq xs ys h'.2]

end

instance : DecidableEq PyVal := fun a b =>
  if h : pyBEq a b = true then isTrue (pyBEq_eq a b h)
  else isFalse (fun he => h (he ▸ pyBEq_refl a))

/-- Python truthiness: `None`, `False`, `0`, `""`, `[]`, and the empty
dict are falsy; everything else is truthy. -/
def pyTruthy : PyVal → Bool
  | pynull => false
  | pybool b => b
  | pyint n => n != 0
  | pystr s => s != ""
  | pylist xs => !xs.isEmpty
  | pydict fs => !fs.isEmpty

/-- First value stored under key `k`, mirroring Python dict lookup
(Python dicts have unique keys, so first-match lookup is faithful). -/
def dGet (fs : List (PyVal × PyVal)) (k : PyVal) : Option PyVal :=
  match fs with
  | [] => none
  | (k₀, v₀) :: rest => if k₀ = k then some v₀ else dGet rest k

/-- Lookup with a string key, the common case for decoded JSON. -/
def dGetS (fs : List (PyVal × PyVal)) (k : String) : Option PyVal :=
  dGet fs (pystr k)

/-- Python's `d.get(k, default)`. -/
def dGetD (fs : List (PyVal × PyVal)) (k : PyVal) (dflt : PyVal) : PyVal :=
  (dGet fs k).getD dflt

/-- Python's `k in d`. -/
def dMem (fs : List (PyVal × PyVal)) (k : PyVal) : Bool :=
  (dGet fs k).isSome

/-- Python dict assignment `d[k] = v`: an existing key keeps its
position and is overwritten; a new key is appended at the end. -/
def dSet (fs : List (PyVal × PyVal)) (k v : PyVal) : List (PyVal × PyVal) :=
  match fs with
  | [] => [(k, v)]
  | (k₀, v₀) :: rest =>
      if k₀ = k then (k₀, v) :: rest else (k₀, v₀) :: dSet rest k v

/-- Keys of a dict, in storage order. -/
def dKeys (fs : List (PyVal × PyVal)) : List PyVal :=
  fs.map Prod.fst

/-- Read a string-keyed field of a value that should be a dict. -/
def pyDictGetS (v : PyVal) (k : String) : Option PyVal :=
  match v with
  | pydict fs => dGet fs (pystr k)
  | _ => none

/-- Characters Python's `str.strip()` removes (ASCII whitespace). -/
def pyIsSpace (c : Char) : Bool :=
  c = ' ' || c = '\t' || c = '\n' || c = '\r' || c = '\x0b' || c = '\x0c'

/-- ASCII decimal digit test (Python `str.isdigit` restricted to ASCII,
which is all the integration's inputs use). -/
def isDigitChar (c : Char) : Bool :=
  ('0' ≤ c) && (c ≤ '9')

/-- `str.strip()` over a character list. -/
def stripChars (cs : List Char) : List Char :=
  (cs.dropWhile pyIsSpace).reverse.dropWhile pyIsSpace |>.reverse

/-- `str.strip()`. -/
def pyStrip (s : String) : String :=
  String.mk (stripChars s.data)

/-- Python `str.isdigit()`: nonempty and all digits. -/
def pyIsDigit (s : String) : Bool :=
  !s.data.isEmpty && s.data.all isDigitChar

/-- Numeric value of a digit character. -/
def digitVal (c : Char) : Nat :=
  c.toNat - '0'.toNat

/-- Value of a string of decimal digits. -/
def digitsVal (cs : List Char) : Nat :=
  cs.foldl (fun acc c => acc * 10 + digitVal c) 0

/-- Decimal rendering of a natural number (what Python's `str` prints),
written with explicit fuel so the kernel can evaluate it. -/
def natDecAux : Nat → Nat → List Char
  | 0, _ => []
  | _ + 1, 0 => []
  | fuel + 1, n =>
      natDecAux fuel (n / 10) ++ [Char.ofNat (n % 10 + '0'.toNat)]

/-- Decimal rendering of a natural number. -/
def natDec (n : Nat) : String :=
  if n = 0 then "0" else String.mk (natDecAux (n + 1) n)

/-- Python `str` of an integer. -/
def intDec (i : Int) : String :=
  if i < 0 then "-" ++ natDec i.natAbs else natDec i.toNat

/-- No two consecutive underscores (worker for `underscoresOK`). -/
def noConsecUnderscore : List Char → Bool
  | [] => true
  | [_] => true
  | c₁ :: c₂ :: rest =>
      !(c₁ = '_' && c₂ = '_') && noConsecUnderscore (c₂ :: rest)

/-- Whether the underscore placement in an integer literal is legal for
Python's `int()`: no leading/trailing underscore and no two in a row. -/
def underscoresOK (u : List Char) : Bool :=
  !(u.head? = some '_') && !(u.getLast? = some '_') && noConsecUnderscore u

/-- Sign-and-digits part of `int()` after stripping (worker). -/
def pyIntParseCore (t : List Char) : Option Int :=
  let sign : Int := if t.head? = some '-' then -1 else 1
  let u := if t.head? = some '-' || t.head? = some '+' then t.tail else t
  if u.isEmpty then none
  else if u.all (fun c => isDigitChar c || c = '_') && underscoresOK u then
    some (sign * (digitsVal (u.filter isDigitChar) : Int))
  else none

/-- Python `int(s)`: strip whitespace, optional sign, then decimal
digits possibly separated by single underscores; `none` models
`ValueError`. -/
def pyIntParse (s : String) : Option Int :=
  pyIntParseCore (stripChars s.data)

/-- Fuelled worker for `replaceAllC`; the fuel is the input length, so
the recursion is structural and the kernel can evaluate it. -/
def replaceAllCAux (pat rep : List Char) : Nat → List Char → List Char
  | 0, s => s
  | _ + 1, [] => []
  | fuel + 1, c :: cs =>
      if pat.isPrefixOf (c :: cs) then
        rep ++ replaceAllCAux pat rep fuel (cs.drop (pat.length - 1))
      else
        c :: replaceAllCAux pat rep fuel cs

/-- Python `str.replace(pat, rep)`: replace every occurrence, scanning
left to right. -/
def replaceAllC (pat rep s : List Char) : List Char :=
  replaceAllCAux pat rep s.length s

/-- Python `str.replace` on `String`. -/
def pyReplace (s pat rep : String) : String :=
  String.mk (replaceAllC pat.data rep.data s.data)

/-- Python `s.startswith(pat)`. -/
def pyStartsWith (s pat : String) : Bool :=
  pat.data.isPrefixOf s.data

/-- Python `s.endswith(pat)`. -/
def pyEndsWith (s pat : String) : Bool :=
  pat.data.isSuffixOf s.data

/-- Python `s.split(",")` over a character list: splitting on a single
comma, keeping empty pieces, `[""]` for the empty string. -/
def splitCommaC : List Char → List (List Char)
  | [] => [[]]
  | c :: cs =>
      if c = ',' then [] :: splitCommaC cs
      else
        match splitCommaC cs with
        | t :: ts => (c :: t) :: ts
        | [] => [[c]]

/-- Python `s.split(",")`. -/
def pySplitComma (s : String) : List String :=
  (splitCommaC s.data).map String.mk

mutual

/-- Python `repr` for the value shapes in play. -/
def pyRepr : PyVal → String
  | pynull => "None"
  | pybool b => if b then "True" else "False"
  | pyint n => intDec n
  | pystr s =>
      let q := if s.data.contains '\'' && !(s.data.contains '"') then '"' else '\''
      String.mk [q] ++ String.join (s.data.map (fun c =>
        if c = '\\' then "\\\\"
        else if c = q then "\\" ++ String.mk [q]
        else String.mk [c])) ++ String.mk [q]
  | pylist xs => "[" ++ pyReprList xs ++ "]"
  | pydict fs => "\x7b" ++ pyReprFields fs ++ "\x7d"

/-- Comma-separated reprs of list elements. -/
def pyReprList : List PyVal → String
  | [] => ""
  | [x] => pyRepr x
  | x :: y :: xs => pyRepr x ++ ", " ++ pyReprList (y :: xs)

/-- Comma-separated reprs of dict entries. -/
def pyReprFields : List (PyVal × PyVal) → String
  | [] => ""
  | [(k, v)] => pyRepr k ++ ": " ++ pyRepr v
  | (k, v) :: e :: fs => pyRepr k ++ ": " ++ pyRepr v ++ ", " ++ pyReprFields (e :: fs)

end

/-- Python `str`: identity on strings, `repr` otherwise. -/
def pyStr : PyVal → String
  | pystr s => s
  | v => pyRepr v

/-- Python `isinstance(v, list)`. -/
def isList : PyVal → Bool
  | pylist _ => true
  | _ => false

/-- Python `isinstance(v, dict)`. -/
def isDict : PyVal → Bool
  | pydict _ => true
  | _ => false

/-- Python `isinstance(v, str)`. -/
def isStr : PyVal → Bool
  | pystr _ => true
  | _ => false

/-- A scalar JSON value: neither a list nor a dict. -/
def isScalar : PyVal → Bool
  | pylist _ => false
  | pydict _ => false
  | _ => true

/-- The loop `for key, value in d.items(): if isinstance(value, list) and
key != "count": take value` from sensor.py (lines 87-92, 130-135,
168-173); yields the empty list when no field matches, mirroring the
initial `..._list = []`. -/
def firstListField : List (PyVal × PyVal) → PyVal
  | [] => pylist []
  | (k, v) :: rest =>
      if isList v && k ≠ pystr "count" then v else firstListField rest

/-- The shared payload-shape extraction of sensor.py (lines 79-94 for
users, 122-137 for libraries, 160-175 for invitations): a dict is probed
for a `"data"` key, then the entity-name key, then its first list-valued
non-`"count"` field; a bare list is taken as is; anything else yields the
empty list.  Note the `"data"`/entity values are taken without checking
that they are lists, exactly as `users_data.get("data", [])` does. -/
def normalizePayload (entity : String) (payload : PyVal) : PyVal :=
  match payload with
  | pydict fs =>
      if dMem fs (pystr "data") then dGetD fs (pystr "data") (pylist [])
      else if dMem fs (pystr entity) then dGetD fs (pystr entity) (pylist [])
      else firstListField fs
  | pylist xs => pylist xs
  | _ => pylist []

/-- Python `for x in v`: lists yield elements, dicts yield keys, strings
yield one-character strings, everything else raises `TypeError`
(modelled as `none`). -/
def iterElems : PyVal → Option (List PyVal)
  | pylist xs => some xs
  | pydict fs => some (dKeys fs)
  | pystr s => some (s.data.map (fun c => pystr (String.mk [c])))
  | _ => none

/-- Display string for one user record (sensor.py lines 98-109). -/
def userDisplayName (fs : List (PyVal × PyVal)) : PyVal :=
  let uid := dGetD fs (pystr "id") pynull
  let email := dGetD fs (pystr "email") pynull
  let username := dGetD fs (pystr "username") pynull
  if pyTruthy email && pyTruthy username then
    pystr (pyStr username ++ " (" ++ pyStr email ++ ")")
  else if pyTruthy email then email
  else if pyTruthy username then username
  else pystr ("User " ++ pyStr uid)

/-- Loop worker for `buildUserLookup`. -/
def buildUserLookupAux (acc : List (PyVal × PyVal)) : List PyVal → List (PyVal × PyVal)
  | [] => acc
  | u :: rest =>
      match u with
      | pydict fs =>
          let uid := dGetD fs (pystr "id") pynull
          if pyTruthy uid then buildUserLookupAux (dSet acc uid (userDisplayName fs)) rest
          else buildUserLookupAux acc rest
      | _ => buildUserLookupAux acc rest

/-- The user lookup table (sensor.py lines 96-112): one entry per dict
record with a truthy `id`; non-dict records are skipped. -/
def buildUserLookup (users : List PyVal) : List (PyVal × PyVal) :=
  buildUserLookupAux [] users

/-- Display string for one library record (sensor.py lines 141-149). -/
def libraryDisplayName (fs : List (PyVal × PyVal)) : PyVal :=
  let lid := dGetD fs (pystr "id") pynull
  let lname := dGetD fs (pystr "name")
    (dGetD fs (pystr "title") (pystr ("Library " ++ pyStr lid)))
  let sname := dGetD fs (pystr "server_name") (pystr "")
  if pyTruthy sname && sname ≠ pystr "Unknown" then
    pystr (pyStr lname ++ " (" ++ pyStr sname ++ ")")
  else lname

/-- Loop worker for `buildLibraryLookup`. -/
def buildLibraryLookupAux (acc : List (PyVal × PyVal)) : List PyVal → List (PyVal × PyVal)
  | [] => acc
  | l :: rest =>
      match l with
      | pydict fs =>
          let lid := dGetD fs (pystr "id") pynull
          if pyTruthy lid then buildLibraryLookupAux (dSet acc lid (libraryDisplayName fs)) rest
          else buildLibraryLookupAux acc rest
      | _ => buildLibraryLookupAux acc rest

/-- The library lookup table (sensor.py lines 139-152). -/
def buildLibraryLookup (libraries : List PyVal) : List (PyVal × PyVal) :=
  buildLibraryLookupAux [] libraries

/-- The `int(used_by.replace("<User ", "").replace(">", "").strip())`
pipeline of sensor.py line 188; `none` models the caught `ValueError`. -/
def parseUserRef (s : String) : Option Int :=
  pyIntParse (pyStrip (pyReplace (pyReplace s "<User " "") ">" ""))

/-- The `used_by` resolution of sensor.py lines 181-203: a
`"<User N>"`-style string, a truthy dict with a truthy `id`, or a bare
int is looked up; every unresolved case keeps the original value. -/
def resolveUsedBy (userLookup : List (PyVal × PyVal)) (ub : PyVal) : PyVal :=
  match ub with
  | pystr s =>
      if pyStartsWith s "<User " && pyEndsWith s ">" then
        match parseUserRef s with
        | some n => if dMem userLookup (pyint n) then dGetD userLookup (pyint n) ub else ub
        | none => ub
      else ub
  | pydict fs =>
      if pyTruthy (pydict fs) then
        let uid := dGetD fs (pystr "id") pynull
        if pyTruthy uid && dMem userLookup uid then dGetD userLookup uid ub else ub
      else ub
  | pyint k =>
      if dMem userLookup (pyint k) then dGetD userLookup (pyint k) ub else ub
  | _ => ub

/-- Resolution of one `specific_libraries` element (sensor.py lines
211-222): an int found in the table becomes its label; a dict carrying
an `id` becomes the id's label, falling back to its own `name` or
`"Library {id}"`; anything else becomes `str(element)`. -/
def resolveLibElem (libLookup : List (PyVal × PyVal)) (x : PyVal) : PyVal :=
  match x with
  | pyint k =>
      if dMem libLookup (pyint k) then dGetD libLookup (pyint k) x
      else pystr (pyStr x)
  | pydict fs =>
      if dMem fs (pystr "id") then
        let lid := dGetD fs (pystr "id") pynull
        if dMem libLookup lid then dGetD libLookup lid x
        else dGetD fs (pystr "name") (pystr ("Library " ++ pyStr lid))
      else pystr (pyStr x)
  | _ => pystr (pyStr x)

/-- The `specific_libraries` rewrite given the field's value (worker):
only a nonempty list is replaced elementwise (sensor.py line 208). -/
def specLibsValue (libLookup : List (PyVal × PyVal)) (fs₁ : List (PyVal × PyVal))
    (sv : PyVal) : List (PyVal × PyVal) :=
  match sv with
  | pylist xs =>
      if !xs.isEmpty then
        dSet fs₁ (pystr "specific_libraries") (pylist (xs.map (resolveLibElem libLookup)))
      else fs₁
  | _ => fs₁

/-- In-place update of one invitation record (sensor.py lines 178-224):
non-dict entries are left alone; a present `used_by` field is resolved;
a present, nonempty `specific_libraries` list is replaced elementwise. -/
def transformInvitation (userLookup libLookup : List (PyVal × PyVal)) (inv : PyVal) : PyVal :=
  match inv with
  | pydict fs =>
      let fs₁ :=
        match dGetS fs "used_by" with
        | some ub => dSet fs (pystr "used_by") (resolveUsedBy userLookup ub)
        | none => fs
      let fs₂ :=
        match dGetS fs₁ "specific_libraries" with
        | some sv => specLibsValue libLookup fs₁ sv
        | none => fs₁
      pydict fs₂
  | v => v

/-- Iterating the extracted `invitations_list` and mutating its dict
elements, then returning it (sensor.py lines 178-227): only a list can
carry dict elements, so a dict (iterated by key) and a string (iterated
by character) come back unchanged; a non-iterable raises. -/
def transformIterated (userLookup libLookup : List (PyVal × PyVal)) (v : PyVal) : Option PyVal :=
  match v with
  | pylist xs => some (pylist (xs.map (transformInvitation userLookup libLookup)))
  | pydict fs => some (pydict fs)
  | pystr s => some (pystr s)
  | _ => none

/-- `_enrich_invitations_with_user_emails` (sensor.py lines 66-227) as a
value-level function of the coordinator snapshot and the invitations
payload.  `none` models an uncaught runtime exception (iterating a
non-iterable extraction result, or attribute access on a non-dict
snapshot).  `copy.deepcopy` is the identity at the value level; the
heap-level model below accounts for the aliasing it prevents. -/
def enrichInvitations (coordData invitationsData : PyVal) : Option PyVal :=
  if !pyTruthy invitationsData || !pyTruthy coordData then some invitationsData
  else
    match coordData with
    | pydict cfs => do
        let usersData := dGetD cfs (pystr "users") pynull
        let userLookup ←
          if pyTruthy usersData then
            (iterElems (normalizePayload "users" usersData)).map buildUserLookup
          else some []
        let librariesData := dGetD cfs (pystr "libraries") pynull
        let libLookup ←
          if pyTruthy librariesData then
            (iterElems (normalizePayload "libraries" librariesData)).map buildLibraryLookup
          else some []
        transformIterated userLookup libLookup (normalizePayload "invitations" invitationsData)
    | _ => none

/-- Python `len(v)`; `none` models `TypeError` on unsized values. -/
def pyLen : PyVal → Option Nat
  | pystr s => some s.length
  | pylist xs => some xs.length
  | pydict fs => some fs.length
  | _ => none

/-- The list extraction used by `extra_state_attributes` (sensor.py
lines 287-290 and its four clones): only a dict with a `"data"` key or a
bare list yields records; every other payload yields the empty list. -/
def viewList (data : PyVal) : PyVal :=
  match data with
  | pydict fs =>
      if dMem fs (pystr "data") then dGetD fs (pystr "data") pynull else pylist []
  | pylist xs => pylist xs
  | _ => pylist []

/-- The `d.get(k, 0)` read of a histogram bucket: the stored count, or
0 when the key is absent (a non-int value is unreachable, since only
ints are ever stored). -/
def countIn (m : List (PyVal × PyVal)) (b : PyVal) : Int :=
  match dGet m b with
  | some (pyint n) => n
  | _ => 0

/-- One step of the group-by count, `d[k] = d.get(k, 0) + 1` over
`record.get(field, "unknown")` (sensor.py lines 296-298 etc.); a
non-dict record raises `AttributeError`. -/
def histStep (field : String) (acc : List (PyVal × PyVal)) (r : PyVal) :
    Option (List (PyVal × PyVal)) :=
  match r with
  | pydict fs =>
      let b := dGetD fs (pystr field) (pystr "unknown")
      some (dSet acc b (pyint (countIn acc b + 1)))
  | _ => none

/-- Loop worker for `buildHistogram`. -/
def buildHistogramAux (field : String) (acc : List (PyVal × PyVal)) :
    List PyVal → Option (List (PyVal × PyVal))
  | [] => some acc
  | r :: rest =>
      match histStep field acc r with
      | some acc₁ => buildHistogramAux field acc₁ rest
      | none => none

/-- Group-by histogram over a record list. -/
def buildHistogram (field : String) (xs : List PyVal) : Option (List (PyVal × PyVal)) :=
  buildHistogramAux field [] xs

/-- Loop worker for `countActive`. -/
def countActiveAux (acc : Nat) : List PyVal → Option Nat
  | [] => some acc
  | r :: rest =>
      match r with
      | pydict fs =>
          countActiveAux
            (if pyTruthy (dGetD fs (pystr "deleted_at") pynull) then acc else acc + 1) rest
      | _ => none

/-- `sum(1 for key in keys_list if not key.get("deleted_at"))`
(sensor.py line 355). -/
def countActive (xs : List PyVal) : Option Nat :=
  countActiveAux 0 xs

/-- The shared total-plus-histogram block of `extra_state_attributes`
(sensor.py lines 286-344, one clone per list-bearing endpoint). -/
def listSensorAttrs (attrs : List (PyVal × PyVal)) (data : PyVal)
    (totalKey histKey field : String) : Option (List (PyVal × PyVal)) := do
  let ul := viewList data
  let n ← pyLen ul
  let attrs := dSet attrs (pystr totalKey) (pyint n)
  if pyTruthy ul then
    let elems ← iterElems ul
    let h ← buildHistogram field elems
    return dSet attrs (pystr histKey) (pydict h)
  else
    return attrs

/-- The api_keys block of `extra_state_attributes` (sensor.py lines
346-357): a total plus active/inactive counts instead of a histogram. -/
def apiKeysAttrs (attrs : List (PyVal × PyVal)) (data : PyVal) :
    Option (List (PyVal × PyVal)) := do
  let kl := viewList data
  let n ← pyLen kl
  let attrs := dSet attrs (pystr "total_api_keys") (pyint n)
  if pyTruthy kl then
    let elems ← iterElems kl
    let a ← countActive elems
    let attrs := dSet attrs (pystr "active_api_keys") (pyint a)
    return dSet attrs (pystr "inactive_api_keys") (pyint ((n : Int) - (a : Int)))
  else
    return attrs

/-- The status block of `extra_state_attributes` (sensor.py lines
280-284): copy selected scalar fields out of the status payload. -/
def statusAttrs (attrs : List (PyVal × PyVal)) (data : PyVal) : List (PyVal × PyVal) :=
  match data with
  | pydict fs =>
      ["total_users", "total_invitations", "total_requests", "version"].foldl
        (fun acc k =>
          if dMem fs (pystr k) then dSet acc (pystr k) (dGetD fs (pystr k) pynull)
          else acc) attrs
  | _ => attrs

/-- `WizarrSensor.extra_state_attributes` (sensor.py lines 260-359) for
one sensor type over the coordinator snapshot.  `none` models an
uncaught runtime exception inside the property. -/
def sensorAttrs (coordData : PyVal) (sensorType : String) : Option PyVal :=
  match coordData with
  | pynull => some (pydict [])
  | pydict cfs =>
      let data := dGetD cfs (pystr sensorType) pynull
      if data = pynull then some (pydict [(pystr "status", pystr "unavailable")])
      else do
        let attrs₀ ←
          if sensorType = "invitations" then
            (enrichInvitations coordData data).map (fun e => [(pystr "invitations", e)])
          else some [(pystr "raw_data", data)]
        let attrs ←
          if sensorType = "status" then some (statusAttrs attrs₀ data)
          else if sensorType = "users" && (isList data || isDict data) then
            listSensorAttrs attrs₀ data "total_users" "users_by_server" "server_type"
          else if sensorType = "invitations" && (isList data || isDict data) then
            listSensorAttrs attrs₀ data "total_invitations" "invitations_by_status" "status"
          else if sensorType = "libraries" && (isList data || isDict data) then
            listSensorAttrs attrs₀ data "total_libraries" "libraries_by_server" "server_name"
          else if sensorType = "servers" && (isList data || isDict data) then
            listSensorAttrs attrs₀ data "total_servers" "servers_by_type" "server_type"
          else if sensorType = "api_keys" && (isList data || isDict data) then
            apiKeysAttrs attrs₀ data
          else some attrs₀
        return pydict attrs
  | _ => none

/-- The six endpoint keys of a snapshot, in the order the coordinator
fetches them (`__init__.py` lines 522-529). -/
def wizarrEndpoints : List String :=
  ["status", "users", "invitations", "libraries", "servers", "api_keys"]

/-- What the aggregator stores for one endpoint: the decoded payload on
success, the `None` sentinel on any exception (`__init__.py` lines
533-538). -/
def snapshotValue (r : Except Unit PyVal) : PyVal :=
  match r with
  | .ok v => v
  | .error _ => pynull

/-- `WizarrDataUpdateCoordinator._async_update_data` (`__init__.py`
lines 516-543): with `return_exceptions=True` each endpoint's outcome is
recorded independently, an exception becoming the `None` sentinel. -/
def asyncUpdateData (rStatus rUsers rInvitations rLibraries rServers rApiKeys :
    Except Unit PyVal) : List (PyVal × PyVal) :=
  let tasks : List (String × Except Unit PyVal) :=
    [("status", rStatus), ("users", rUsers), ("invitations", rInvitations),
     ("libraries", rLibraries), ("servers", rServers), ("api_keys", rApiKeys)]
  tasks.foldl (fun d er => dSet d (pystr er.1) (snapshotValue er.2)) []

/-- `[int(id.strip()) for id in server_ids_str.split(",") if
id.strip().isdigit()]` (`__init__.py` lines 108, 129, 193, 215). -/
def parseServerIds (s : String) : List Int :=
  (pySplitComma s).filterMap
    (fun t =>
      if pyIsDigit (pyStrip t) then some ((digitsVal (pyStrip t).data : Nat) : Int)
      else none)

/-- Input of the create-invitation service call, after schema
validation (`__init__.py` lines 32-40). -/
structure InvitationCall where
  server_ids : String
  expires_in_days : Option Int := none
  duration : Option String := none
  library_ids : Option String := none
  allow_downloads : Option Bool := none
  allow_live_tv : Option Bool := none
  allow_mobile_uploads : Option Bool := none

/-- The invitation payload assembly shared by both services
(`__init__.py` lines 114-140 and 200-226). -/
def buildInvitationData (c : InvitationCall) : List (PyVal × PyVal) :=
  let d := [(pystr "server_ids", pylist ((parseServerIds c.server_ids).map pyint))]
  let d :=
    match c.expires_in_days with
    | some n => dSet d (pystr "expires_in_days") (pyint n)
    | none => d
  let d :=
    match c.duration with
    | some s =>
        if s ≠ "" then dSet d (pystr "duration") (pystr s)
        else dSet d (pystr "unlimited") (pybool true)
    | none => dSet d (pystr "unlimited") (pybool true)
  let d :=
    match c.library_ids with
    | some ls =>
        if ls ≠ "" then
          let ids := parseServerIds ls
          if ids ≠ [] then dSet d (pystr "library_ids") (pylist (ids.map pyint)) else d
        else d
    | none => d
  let d :=
    match c.allow_downloads with
    | some b => dSet d (pystr "allow_downloads") (pybool b)
    | none => d
  let d :=
    match c.allow_live_tv with
    | some b => dSet d (pystr "allow_live_tv") (pybool b)
    | none => d
  match c.allow_mobile_uploads with
  | some b => dSet d (pystr "allow_mobile_uploads") (pybool b)
  | none => d

/-- Observable outcome of one `create_invitation` service call: either
the validation guard stopped it before any request, or a create request
with the given payload was issued. -/
inductive CreateServiceResult where
  | validationError : CreateServiceResult
  | requested : List (PyVal × PyVal) → CreateServiceResult
deriving DecidableEq

/-- `create_invitation_service` (`__init__.py` lines 104-175) up to the
point where the create request is issued; the event fired afterwards
carries no further network traffic. -/
def createInvitationService (c : InvitationCall) : CreateServiceResult :=
  let server_ids := parseServerIds c.server_ids
  if server_ids.isEmpty then .validationError
  else .requested (buildInvitationData c)

/-- Character class `[a-zA-Z0-9._%+-]` of the email regex
(`__init__.py` line 186). -/
def emailLocalChar (c : Char) : Bool :=
  c.isAlpha || c.isDigit || c = '.' || c = '_' || c = '%' || c = '+' || c = '-'

/-- Character class `[a-zA-Z0-9.-]` of the email regex. -/
def emailDomainChar (c : Char) : Bool :=
  c.isAlpha || c.isDigit || c = '.' || c = '-'

/-- Match of `^[a-zA-Z0-9._%+-]+@[a-zA-Z0-9.-]+\.[a-zA-Z]\x7b2,\x7d$`
against a whole character list: since neither class contains `@`, the
string must decompose as local part, `@`, then some split of the rest
into a nonempty domain part, a dot and a 2+-letter alphabetic tail. -/
def emailCoreMatch (cs : List Char) : Bool :=
  let l := cs.takeWhile (fun c => c ≠ '@')
  match cs.drop l.length with
  | '@' :: r =>
      (!l.isEmpty) && l.all emailLocalChar &&
        (List.range r.length).any (fun k =>
          match r.get? k with
          | some '.' =>
              let m := r.take k
              let a := r.drop (k + 1)
              (!m.isEmpty) && m.all emailDomainChar &&
                decide (2 ≤ a.length) && a.all Char.isAlpha
          | _ => false)
  | _ => false

/-- `re.match` of the email pattern: anchored at the start, and `$` also
matches just before one trailing newline. -/
def emailMatch (s : String) : Bool :=
  emailCoreMatch s.data ||
    (s.data.getLast? = some '\n' && emailCoreMatch s.data.dropLast)

/-- Strip trailing slashes, Python `public_url.rstrip("/")`
(`__init__.py` line 264). -/
def rstripSlash (s : String) : String :=
  String.mk (s.data.reverse.dropWhile (fun c => c = '/') |>.reverse)

/-- Path-plus-query of a URL as `urllib.parse.urlparse` extracts it
(`__init__.py` lines 257-261): drop the fragment, skip `scheme://netloc`
when present, and keep `path?query`. -/
def urlPathQuery (u : String) : String :=
  let noFrag := u.data.takeWhile (fun c => c ≠ '#')
  let afterScheme :=
    match (String.mk noFrag).splitOn "://" with
    | _ :: rest :: _ => (rest.data.dropWhile (fun c => c ≠ '/') : List Char)
    | _ => noFrag
  let path := afterScheme.takeWhile (fun c => c ≠ '?')
  let query := match afterScheme.drop path.length with
    | '?' :: q => q
    | _ => []
  String.mk path ++ (if query.isEmpty then "" else "?" ++ String.mk query)

/-- Input of the create-invitation-and-email service call
(`__init__.py` lines 42-57); the SMTP fields do not influence the
behaviour modelled here beyond the send succeeding or failing. -/
structure EmailCall extends InvitationCall where
  recipient_email : String
  public_url : Option String := none

/-- Terminal states of one email-service invocation. -/
inductive EmailOutcome where
  | validationEmail : EmailOutcome
  | validationServerIds : EmailOutcome
  | createFailed : EmailOutcome
  | noUrl : EmailOutcome
  | sent : EmailOutcome
  | sendFailed : EmailOutcome
deriving DecidableEq

/-- Observable trace of one `send_invitation_email_service` call: the
outcome, whether a create request went out (and its payload), whether
the servers endpoint was queried and whether an email was handed to
SMTP. -/
structure EmailTrace where
  outcome : EmailOutcome
  createRequested : Option (List (PyVal × PyVal))
  getServersCalled : Bool
  emailSent : Bool
deriving DecidableEq

/-- URL extraction from the create response (`__init__.py` lines
233-250): look under an `"invitation"` wrapper first, else at the root;
a falsy URL aborts with the no-URL error.  `.error` models an
`AttributeError` when the wrapper is truthy but not a dict. -/
def extractInvitationUrl (result : PyVal) : Except Unit (Option PyVal) :=
  if pyTruthy result then
    match result with
    | pydict fs =>
        let inv := dGetD fs (pystr "invitation") pynull
        if pyTruthy inv then
          match inv with
          | pydict ifs =>
              let u := dGetD ifs (pystr "url") pynull
              .ok (if pyTruthy u then some u else none)
          | _ => .error ()
        else
          let u := dGetD fs (pystr "url") pynull
          .ok (if pyTruthy u then some u else none)
    | _ => .ok none
  else .ok none

/-- `send_invitation_email_service` (`__init__.py` lines 177-469) as a
trace over the two oracle responses (create call, servers call) and the
SMTP outcome.  Validation happens before any network call: first the
email format, then the parsed server ids.  The body composition is not
modelled; only which external interactions occur. -/
def sendInvitationEmailService (c : EmailCall)
    (createResp : Except Unit PyVal) (serversResp : Except Unit PyVal)
    (smtpOk : Bool) : EmailTrace :=
  if !emailMatch c.recipient_email then
    ⟨.validationEmail, none, false, false⟩
  else
    let server_ids := parseServerIds c.server_ids
    if server_ids.isEmpty then
      ⟨.validationServerIds, none, false, false⟩
    else
      let payload := buildInvitationData c.toInvitationCall
      match createResp with
      | .error _ => ⟨.createFailed, some payload, false, false⟩
      | .ok result =>
          match extractInvitationUrl result with
          | .error _ => ⟨.createFailed, some payload, false, false⟩
          | .ok none => ⟨.noUrl, some payload, false, false⟩
          | .ok (some url) =>
              let _finalUrl :=
                match c.public_url with
                | some p =>
                    if p ≠ "" then pystr (rstripSlash p ++ urlPathQuery (pyStr url))
                    else url
                | none => url
              let _servers := serversResp
              if smtpOk then ⟨.sent, some payload, true, true⟩
              else ⟨.sendFailed, some payload, true, false⟩

/-! ## Heap model

The value-level model above cannot express the claim that enrichment
never mutates its input, because mutation is invisible in a pure value
semantics.  The definitions below re-run sensor.py lines 154-227 over an
explicit heap: lists and dicts are heap objects addressed by naturals,
`copy.deepcopy` allocates fresh addresses, and the enrichment loop
writes through references, exactly as CPython does.  (Python's deepcopy
memoisation of shared substructure is not modelled; it only affects
sharing inside the copy, not the untouched original.  An `id` that is
itself a list or dict would make Python raise on hashing; such ids are
compared by reference here, which nothing exercises.) -/

/-- A Python value as a local: an immutable scalar or a reference into
the heap. -/
inductive HVal where
  | hnull : HVal
  | hbool : Bool → HVal
  | hint : Int → HVal
  | hstr : String → HVal
  | href : Nat → HVal
deriving DecidableEq, Repr

/-- A mutable heap object: a list or a string-keyed dict (the decoded
JSON payloads only carry string keys). -/
inductive HObj where
  | hlist : List HVal → HObj
  | hdict : List (String × HVal) → HObj
deriving DecidableEq, Repr

/-- The heap: addresses to objects, first entry wins. -/
abbrev Heap := List (Nat × HObj)

/-- Heap lookup. -/
def hLookup (h : Heap) (a : Nat) : Option HObj :=
  match h with
  | [] => none
  | (b, o) :: rest => if b = a then some o else hLookup rest a

/-- In-place update of the object at an address. -/
def hSet (h : Heap) (a : Nat) (o : HObj) : Heap :=
  match h with
  | [] => []
  | (b, p) :: rest => if b = a then (a, o) :: hSet rest a o else (b, p) :: hSet rest a o

/-- Field lookup in a heap dict. -/
def sGetF (fs : List (String × HVal)) (k : String) : Option HVal :=
  match fs with
  | [] => none
  | (k₀, v₀) :: rest => if k₀ = k then some v₀ else sGetF rest k

/-- Field assignment in a heap dict, Python semantics. -/
def sSetF (fs : List (String × HVal)) (k : String) (v : HVal) : List (String × HVal) :=
  match fs with
  | [] => [(k, v)]
  | (k₀, v₀) :: rest =>
      if k₀ = k then (k₀, v) :: rest else (k₀, v₀) :: sSetF rest k v

/-- Option-valued elementwise map that the kernel can evaluate. -/
def optMapList (f : α → Option β) : List α → Option (List β)
  | [] => some []
  | x :: xs => do
      let y ← f x
      let ys ← optMapList f xs
      return y :: ys

/-- Read one heap object given a reader for its children (worker for
`readTree`). -/
def readObj (rd : HVal → Option PyVal) (o : HObj) : Option PyVal :=
  match o with
  | .hlist xs => (optMapList rd xs).map pylist
  | .hdict fs =>
      (optMapList (fun kv => (rd kv.2).map (fun pv => (pystr kv.1, pv))) fs).map pydict

/-- Read the value tree rooted at a local, with fuel against cycles. -/
def readTree : Nat → Heap → HVal → Option PyVal
  | 0, _, _ => none
  | fuel + 1, h, v =>
      match v with
      | .hnull => some pynull
      | .hbool b => some (pybool b)
      | .hint n => some (pyint n)
      | .hstr s => some (pystr s)
      | .href a =>
          match hLookup h a with
          | some o => readObj (readTree fuel h) o
          | none => none

/-- Sequentially deep-copy a list of locals, threading heap and fresh
counter (worker for `deepcopy`, parameterised by the recursive call). -/
def copyElems (cp : Heap → HVal → Nat → Option (Heap × HVal × Nat)) :
    Heap → List HVal → Nat → Option (Heap × List HVal × Nat)
  | h, [], m => some (h, [], m)
  | h, x :: xs, m => do
      let (h₁, y, m₁) ← cp h x m
      let (h₂, ys, m₂) ← copyElems cp h₁ xs m₁
      return (h₂, y :: ys, m₂)

/-- Deep-copy of dict fields (worker for `deepcopy`). -/
def copyFields (cp : Heap → HVal → Nat → Option (Heap × HVal × Nat)) :
    Heap → List (String × HVal) → Nat → Option (Heap × List (String × HVal) × Nat)
  | h, [], m => some (h, [], m)
  | h, (k, x) :: fs, m => do
      let (h₁, y, m₁) ← cp h x m
      let (h₂, ys, m₂) ← copyFields cp h₁ fs m₁
      return (h₂, (k, y) :: ys, m₂)

/-- `copy.deepcopy` (sensor.py line 156): scalars are returned as is;
referenced objects are rebuilt recursively at fresh addresses, so no
object of the copy aliases any object of the original. -/
def deepcopy : Nat → Heap → HVal → Nat → Option (Heap × HVal × Nat)
  | 0, _, _, _ => none
  | fuel + 1, h, v, m =>
      match v with
      | .href a =>
          match hLookup h a with
          | some (.hlist xs) => do
              let (h₁, ys, m₁) ← copyElems (deepcopy fuel) h xs m
              return ((m₁, HObj.hlist ys) :: h₁, .href m₁, m₁ + 1)
          | some (.hdict fs) => do
              let (h₁, ys, m₁) ← copyFields (deepcopy fuel) h fs m
              return ((m₁, HObj.hdict ys) :: h₁, .href m₁, m₁ + 1)
          | none => none
      | w => some (h, w, m)

/-- Truthiness of a local (a referenced list/dict is truthy when
nonempty). -/
def hTruthy (h : Heap) (v : HVal) : Bool :=
  match v with
  | .hnull => false
  | .hbool b => b
  | .hint n => n != 0
  | .hstr s => s != ""
  | .href a =>
      match hLookup h a with
      | some (.hlist xs) => !xs.isEmpty
      | some (.hdict fs) => !fs.isEmpty
      | none => false

/-- First-match lookup in a lookup table keyed by locals. -/
def hvLookup (tbl : List (HVal × HVal)) (k : HVal) : Option HVal :=
  match tbl with
  | [] => none
  | (k₀, v₀) :: rest => if k₀ = k then some v₀ else hvLookup rest k

/-- Python `str()` of a heap value (used for the `str(lib_id)` and
f-string fallbacks); fuel exhaustion yields `""`, which no finite
acyclic input reaches. -/
def strHeap (fuel : Nat) (h : Heap) (v : HVal) : String :=
  match readTree fuel h v with
  | some pv => pyStr pv
  | none => ""

/-- Heap-level `used_by` resolution (sensor.py lines 181-203). -/
def usedByResolveH (h : Heap) (uL : List (HVal × HVal)) (ub : HVal) : HVal :=
  match ub with
  | .hstr s =>
      if pyStartsWith s "<User " && pyEndsWith s ">" then
        match parseUserRef s with
        | some n =>
            match hvLookup uL (.hint n) with
            | some lab => lab
            | none => ub
        | none => ub
      else ub
  | .href a =>
      match hLookup h a with
      | some (.hdict fs) =>
          if !fs.isEmpty then
            match sGetF fs "id" with
            | some uid =>
                if hTruthy h uid then
                  match hvLookup uL uid with
                  | some lab => lab
                  | none => ub
                else ub
            | none => ub
          else ub
      | _ => ub
  | .hint k =>
      match hvLookup uL (.hint k) with
      | some lab => lab
      | none => ub
  | _ => ub

/-- Heap-level resolution of one `specific_libraries` element
(sensor.py lines 211-222). -/
def libElemResolveH (fuel : Nat) (h : Heap) (lL : List (HVal × HVal)) (x : HVal) : HVal :=
  match x with
  | .hint k =>
      match hvLookup lL (.hint k) with
      | some lab => lab
      | none => .hstr (strHeap fuel h x)
  | .href a =>
      match hLookup h a with
      | some (.hdict fs) =>
          match sGetF fs "id" with
          | some lid =>
              match hvLookup lL lid with
              | some lab => lab
              | none => (sGetF fs "name").getD (.hstr ("Library " ++ strHeap fuel h lid))
          | none => .hstr (strHeap fuel h x)
      | _ => .hstr (strHeap fuel h x)
  | _ => .hstr (strHeap fuel h x)

/-- The `used_by` rewrite of one invitation dict (sensor.py lines
181-203); when the field is absent the fields are untouched. -/
def usedByBlock (h : Heap) (uL : List (HVal × HVal)) (fs : List (String × HVal)) :
    List (String × HVal) :=
  match sGetF fs "used_by" with
  | some ub => sSetF fs "used_by" (usedByResolveH h uL ub)
  | none => fs

/-- The `specific_libraries` replacement once the field's referent is
known (sensor.py lines 206-224): only a nonempty list triggers the
rewrite, which allocates the fresh `library_names` list at address `m`
and repoints the field at it. -/
def specificLibsObj (fuel : Nat) (lL : List (HVal × HVal)) (h₁ : Heap) (m a : Nat)
    (fs₁ : List (String × HVal)) (o : HObj) : Heap × Nat :=
  match o with
  | .hlist xs =>
      if !xs.isEmpty then
        let names := xs.map (libElemResolveH fuel h₁ lL)
        let h₂ : Heap := (m, HObj.hlist names) :: h₁
        (hSet h₂ a (.hdict (sSetF fs₁ "specific_libraries" (.href m))), m + 1)
      else (h₁, m)
  | .hdict _ => (h₁, m)

/-- Dereference the `specific_libraries` field value (worker). -/
def specificLibsRef (fuel : Nat) (lL : List (HVal × HVal)) (h₁ : Heap) (m a : Nat)
    (fs₁ : List (String × HVal)) (sv : HVal) : Heap × Nat :=
  match sv with
  | .href c =>
      match hLookup h₁ c with
      | some o => specificLibsObj fuel lL h₁ m a fs₁ o
      | none => (h₁, m)
  | _ => (h₁, m)

/-- The whole `specific_libraries` block of one invitation. -/
def specificLibsBlock (fuel : Nat) (lL : List (HVal × HVal)) (h₁ : Heap) (m a : Nat)
    (fs₁ : List (String × HVal)) : Heap × Nat :=
  match sGetF fs₁ "specific_libraries" with
  | some sv => specificLibsRef fuel lL h₁ m a fs₁ sv
  | none => (h₁, m)

/-- Processing of the object behind one invitation entry: only a dict
is touched (`isinstance(invitation, dict)`, sensor.py line 179). -/
def processInvObj (fuel : Nat) (uL lL : List (HVal × HVal)) (h : Heap) (m a : Nat)
    (o : HObj) : Heap × Nat :=
  match o with
  | .hdict fs =>
      let fs₁ := usedByBlock h uL fs
      let h₁ := hSet h a (.hdict fs₁)
      specificLibsBlock fuel lL h₁ m a fs₁
  | .hlist _ => (h, m)

/-- Processing of one invitation entry of the extracted list (sensor.py
lines 178-224): non-reference entries (scalars) are skipped outright. -/
def processInv (fuel : Nat) (uL lL : List (HVal × HVal)) (st : Heap × Nat) (v : HVal) :
    Heap × Nat :=
  match v with
  | .href a =>
      match hLookup st.1 a with
      | some o => processInvObj fuel uL lL st.1 st.2 a o
      | none => st
  | _ => st

/-- The whole mutation loop over the extracted invitations. -/
def enrichPassH (fuel : Nat) (uL lL : List (HVal × HVal)) (elems : List HVal)
    (h : Heap) (m : Nat) : Heap × Nat :=
  elems.foldl (processInv fuel uL lL) (h, m)

/-- Whether a local refers to a heap list. -/
def isListH (h : Heap) (v : HVal) : Bool :=
  match v with
  | .href a =>
      match hLookup h a with
      | some (.hlist _) => true
      | _ => false
  | _ => false

/-- Heap-level first-list-field scan (sensor.py lines 168-173); `none`
means the initial empty `invitations_list` survives. -/
def firstListFieldH (h : Heap) : List (String × HVal) → Option HVal
  | [] => none
  | (k, v) :: rest =>
      if isListH h v && k ≠ "count" then some v else firstListFieldH h rest

/-- Extraction step on the object behind the payload reference
(worker for `extractInvListH`). -/
def extractFromObj (h : Heap) (a : Nat) (o : HObj) : Option HVal :=
  match o with
  | .hdict fs =>
      if (sGetF fs "data").isSome then sGetF fs "data"
      else if (sGetF fs "invitations").isSome then sGetF fs "invitations"
      else firstListFieldH h fs
  | .hlist _ => some (.href a)

/-- Heap-level extraction of `invitations_list` from the deep copy
(sensor.py lines 158-175). -/
def extractInvListH (h : Heap) (v : HVal) : Option HVal :=
  match v with
  | .href a =>
      match hLookup h a with
      | some o => extractFromObj h a o
      | none => none
  | _ => none

/-- Python iteration over the extracted object: `none` of the outer
option is the untouched initial `[]`; a non-iterable raises (inner
`none`). -/
def iterH (h : Heap) : Option HVal → Option (List HVal)
  | none => some []
  | some w =>
      match w with
      | .href a =>
          match hLookup h a with
          | some (.hlist xs) => some xs
          | some (.hdict fs) => some (fs.map (fun kv => HVal.hstr kv.1))
          | none => none
      | .hstr s => some (s.data.map (fun c => HVal.hstr (String.mk [c])))
      | _ => none

/-- Heap-level rendering of sensor.py lines 154-227: deep-copy the
invitations payload, extract the list from the copy, and run the
mutation loop over it, returning the final heap.  `none` models fuel
exhaustion or a raised `TypeError`. -/
def enrichInvitationsHeap (fuel : Nat) (h : Heap) (invRoot : HVal)
    (uL lL : List (HVal × HVal)) (m : Nat) : Option Heap := do
  let (h₁, c, m₁) ← deepcopy fuel h invRoot m
  let elems ← iterH h₁ (extractInvListH h₁ c)
  return (enrichPassH fuel uL lL elems h₁ m₁).1

/-- A local whose reference (if any) lies below `n`. -/
def hvalRefBelow (n : Nat) : HVal → Bool
  | .href a => a < n
  | _ => true

/-- An object all of whose references lie below `n`. -/
def hobjRefsBelow (n : Nat) : HObj → Bool
  | .hlist xs => xs.all (hvalRefBelow n)
  | .hdict fs => fs.all (fun kv => hvalRefBelow n kv.2)

/-- A heap whose addresses and references all lie below `n` (so `n` is
a safe fresh-allocation counter). -/
def heapClosedBelow (h : Heap) (n : Nat) : Bool :=
  h.all (fun e => decide (e.1 < n) && hobjRefsBelow n e.2)

/-- A local whose reference (if any) lies in `[lo, hi)`. -/
def hvalInSeg (lo hi : Nat) : HVal → Bool
  | .href a => decide (lo ≤ a) && decide (a < hi)
  | _ => true

/-- An object all of whose references lie in `[lo, hi)`. -/
def hobjInSeg (lo hi : Nat) : HObj → Bool
  | .hlist xs => xs.all (hvalInSeg lo hi)
  | .hdict fs => fs.all (fun kv => hvalInSeg lo hi kv.2)


/-- A local whose reference (if any) lies at or above `n`. -/
def hvalRefGE (n : Nat) : HVal → Bool
  | .href a => decide (n ≤ a)
  | _ => true

theorem hLookup_hSet_ne (h : Heap) (a b : Nat) (o : HObj) (hne : b ≠ a) :
    hLookup (hSet h a o) b = hLookup h b := by
  induction h with
  | nil => rfl
  | cons e rest ih =>
      obtain ⟨c, p⟩ := e
      by_cases hca : c = a
      · subst hca
        have hab : ¬ c = b := fun hab => hne hab.symm
        simp [hSet, hLookup, hab, ih]
      · by_cases hcb : c = b
        · subst hcb
          simp [hSet, hLookup, hca]
        · simp [hSet, hLookup, hca, hcb, ih]

theorem hLookup_cons_ne (h : Heap) (m b : Nat) (o : HObj) (hne : m ≠ b) :
    hLookup ((m, o) :: h) b = hLookup h b := by
  simp [hLookup, hne]

theorem heapClosedBelow_lookup (h : Heap) (n a : Nat) (o : HObj)
    (hc : heapClosedBelow h n = true) (hl : hLookup h a = some o) :
    a < n ∧ hobjRefsBelow n o = true := by
  induction h with
  | nil => simp [hLookup] at hl
  | cons e rest ih =>
      obtain ⟨c, p⟩ := e
      have hc' : (c < n ∧ hobjRefsBelow n p = true) ∧ heapClosedBelow rest n = true := by
        simpa [heapClosedBelow, Bool.and_eq_true, decide_eq_true_eq] using hc
      by_cases hca : c = a
      · subst hca
        rw [hLookup, if_pos rfl] at hl
        cases hl
        exact hc'.1
      · rw [hLookup, if_neg hca] at hl
        exact ih hc'.2 hl

theorem hvalInSeg_mono (lo lo' hi hi' : Nat) (v : HVal) (h1 : lo' ≤ lo) (h2 : hi ≤ hi')
    (hv : hvalInSeg lo hi v = true) : hvalInSeg lo' hi' v = true := by
  cases v <;> simp_all [hvalInSeg] <;> omega

theorem hobjInSeg_mono (lo lo' hi hi' : Nat) (o : HObj) (h1 : lo' ≤ lo) (h2 : hi ≤ hi')
    (ho : hobjInSeg lo hi o = true) : hobjInSeg lo' hi' o = true := by
  cases o with
  | hlist xs =>
      simp only [hobjInSeg, List.all_eq_true] at ho ⊢
      exact fun x hx => hvalInSeg_mono lo lo' hi hi' x h1 h2 (ho x hx)
  | hdict fs =>
      simp only [hobjInSeg, List.all_eq_true] at ho ⊢
      exact fun kv hkv => hvalInSeg_mono lo lo' hi hi' kv.2 h1 h2 (ho kv hkv)

theorem hvalInSeg_refGE (lo hi : Nat) (v : HVal) (hv : hvalInSeg lo hi v = true) :
    hvalRefGE lo v = true := by
  cases v <;> simp_all [hvalInSeg, hvalRefGE]

/-- Postcondition of one deep copy: the counter only grows, the heap is
untouched below the starting counter, the produced local points into the
fresh segment, and every fresh address holds an object entirely within
the fresh segment. -/
def CopyPost (h : Heap) (m : Nat) (h' : Heap) (v' : HVal) (m' : Nat) : Prop :=
  m ≤ m' ∧
  (∀ b, b < m → hLookup h' b = hLookup h b) ∧
  hvalInSeg m m' v' = true ∧
  (∀ b, m ≤ b → b < m' → ∃ o, hLookup h' b = some o ∧ hobjInSeg m m' o = true)

/-- `CopyPost` for a sequence of copies. -/
def CopyElemsPost (h : Heap) (m : Nat) (h' : Heap) (vs : List HVal) (m' : Nat) : Prop :=
  m ≤ m' ∧
  (∀ b, b < m → hLookup h' b = hLookup h b) ∧
  vs.all (hvalInSeg m m') = true ∧
  (∀ b, m ≤ b → b < m' → ∃ o, hLookup h' b = some o ∧ hobjInSeg m m' o = true)

theorem copyElemsPost_nil (h : Heap) (m : Nat) : CopyElemsPost h m h [] m :=
  ⟨le_rfl, fun _ _ => rfl, rfl, fun b hb hb2 => absurd (lt_of_le_of_lt hb hb2) (lt_irrefl m)⟩

theorem copyPost_compose_elem (h h₁ h₂ : Heap) (m m₁ m₂ : Nat) (y : HVal) (ys : List HVal)
    (p₁ : CopyPost h m h₁ y m₁) (p₂ : CopyElemsPost h₁ m₁ h₂ ys m₂) :
    CopyElemsPost h m h₂ (y :: ys) m₂ := by
  obtain ⟨hm₁, ha₁, hv₁, hs₁⟩ := p₁
  obtain ⟨hm₂, ha₂, hv₂, hs₂⟩ := p₂
  refine ⟨le_trans hm₁ hm₂, ?_, ?_, ?_⟩
  · intro b hb
    rw [ha₂ b (lt_of_lt_of_le hb hm₁), ha₁ b hb]
  · simp only [List.all_cons, Bool.and_eq_true]
    refine ⟨hvalInSeg_mono m m m₁ m₂ y le_rfl hm₂ hv₁, ?_⟩
    simp only [List.all_eq_true] at hv₂ ⊢
    exact fun x hx => hvalInSeg_mono m₁ m m₂ m₂ x hm₁ le_rfl (hv₂ x hx)
  · intro b hbm hbm₂
    by_cases hb₁ : b < m₁
    · obtain ⟨o, ho, hseg⟩ := hs₁ b hbm hb₁
      exact ⟨o, by rw [ha₂ b hb₁]; exact ho,
        hobjInSeg_mono m m m₁ m₂ o le_rfl hm₂ hseg⟩
    · obtain ⟨o, ho, hseg⟩ := hs₂ b (le_of_not_lt hb₁) hbm₂
      exact ⟨o, ho, hobjInSeg_mono m₁ m m₂ m₂ o hm₁ le_rfl hseg⟩

theorem copyElems_post
    (cp : Heap → HVal → Nat → Option (Heap × HVal × Nat))
    (hcp : ∀ h v m h' v' m', cp h v m = some (h', v', m') → CopyPost h m h' v' m') :
    ∀ (xs : List HVal) (h : Heap) (m : Nat) (h' : Heap) (ys : List HVal) (m' : Nat),
      copyElems cp h xs m = some (h', ys, m') → CopyElemsPost h m h' ys m'
  | [], h, m, h', ys, m', heq => by
      simp only [copyElems, Option.some.injEq, Prod.mk.injEq] at heq
      obtain ⟨rfl, rfl, rfl⟩ := heq
      exact copyElemsPost_nil h m
  | x :: xs, h, m, h', ys, m', heq => by
      simp only [copyElems, Option.bind_eq_bind, Option.bind_eq_some] at heq
      obtain ⟨⟨h₁, y, m₁⟩, hcpx, ⟨⟨h₂, ys', m₂⟩, hrest, hres⟩⟩ := heq
      simp only [Option.pure_def, Option.some.injEq, Prod.mk.injEq] at hres
      obtain ⟨e1, e2, e3⟩ := hres
      subst e1
      subst e2
      subst e3
      exact copyPost_compose_elem _ _ _ _ _ _ _ _
        (hcp _ _ _ _ _ _ hcpx) (copyElems_post cp hcp xs _ _ _ _ _ hrest)

theorem copyFields_post
    (cp : Heap → HVal → Nat → Option (Heap × HVal × Nat))
    (hcp : ∀ h v m h' v' m', cp h v m = some (h', v', m') → CopyPost h m h' v' m') :
    ∀ (fs : List (String × HVal)) (h : Heap) (m : Nat) (h' : Heap)
      (ys : List (String × HVal)) (m' : Nat),
      copyFields cp h fs m = some (h', ys, m') →
      CopyElemsPost h m h' (ys.map Prod.snd) m'
  | [], h, m, h', ys, m', heq => by
      simp only [copyFields, Option.some.injEq, Prod.mk.injEq] at heq
      obtain ⟨rfl, rfl, rfl⟩ := heq
      exact copyElemsPost_nil h m
  | (k, x) :: fs, h, m, h', ys, m', heq => by
      simp only [copyFields, Option.bind_eq_bind, Option.bind_eq_some] at heq
      obtain ⟨⟨h₁, y, m₁⟩, hcpx, ⟨⟨h₂, ys', m₂⟩, hrest, hres⟩⟩ := heq
      simp only [Option.pure_def, Option.some.injEq, Prod.mk.injEq] at hres
      obtain ⟨e1, e2, e3⟩ := hres
      subst e1
      subst e2
      subst e3
      exact copyPost_compose_elem _ _ _ _ _ _ _ _
        (hcp _ _ _ _ _ _ hcpx) (copyFields_post cp hcp fs _ _ _ _ _ hrest)

theorem copyPost_scalar (h : Heap) (m : Nat) (v : HVal) (hv : hvalInSeg m m v = true) :
    CopyPost h m h v m :=
  ⟨le_rfl, fun _ _ => rfl, hv,
    fun _ hb hb2 => absurd (lt_of_le_of_lt hb hb2) (lt_irrefl m)⟩

theorem deepcopy_post :
    ∀ (fuel : Nat) (h : Heap) (v : HVal) (m : Nat) (h' : Heap) (v' : HVal) (m' : Nat),
      deepcopy fuel h v m = some (h', v', m') → CopyPost h m h' v' m'
  | 0, h, v, m, h', v', m', heq => by simp [deepcopy] at heq
  | fuel + 1, h, v, m, h', v', m', heq => by
      cases v with
      | hnull =>
          simp only [deepcopy, Option.some.injEq, Prod.mk.injEq] at heq
          obtain ⟨e1, e2, e3⟩ := heq
          subst e1; subst e2; subst e3
          exact copyPost_scalar h m _ rfl
      | hbool b =>
          simp only [deepcopy, Option.some.injEq, Prod.mk.injEq] at heq
          obtain ⟨e1, e2, e3⟩ := heq
          subst e1; subst e2; subst e3
          exact copyPost_scalar h m _ rfl
      | hint n =>
          simp only [deepcopy, Option.some.injEq, Prod.mk.injEq] at heq
          obtain ⟨e1, e2, e3⟩ := heq
          subst e1; subst e2; subst e3
          exact copyPost_scalar h m _ rfl
      | hstr s =>
          simp only [deepcopy, Option.some.injEq, Prod.mk.injEq] at heq
          obtain ⟨e1, e2, e3⟩ := heq
          subst e1; subst e2; subst e3
          exact copyPost_scalar h m _ rfl
      | href a =>
          simp only [deepcopy] at heq
          cases hl : hLookup h a with
          | none => rw [hl] at heq; simp at heq
          | some o =>
              rw [hl] at heq
              cases o with
              | hlist xs =>
                  simp only [Option.bind_eq_bind, Option.bind_eq_some] at heq
                  obtain ⟨⟨h₁, ys, m₁⟩, hce, hres⟩ := heq
                  simp only [Option.pure_def, Option.some.injEq, Prod.mk.injEq] at hres
                  obtain ⟨e1, e2, e3⟩ := hres
                  subst e1; subst e2; subst e3
                  obtain ⟨hm₁, ha₁, hall, hseg⟩ :=
                    copyElems_post (deepcopy fuel) (deepcopy_post fuel) xs h m h₁ ys m₁ hce
                  refine ⟨by omega, ?_, ?_, ?_⟩
                  · intro b hb
                    rw [hLookup_cons_ne _ _ _ _ (by omega)]
                    exact ha₁ b hb
                  · simp only [hvalInSeg, Bool.and_eq_true, decide_eq_true_eq]
                    omega
                  · intro b hbm hbm'
                    by_cases hb₁ : b < m₁
                    · obtain ⟨o, ho, hs⟩ := hseg b hbm hb₁
                      exact ⟨o, by rw [hLookup_cons_ne _ _ _ _ (by omega)]; exact ho,
                        hobjInSeg_mono m m m₁ (m₁ + 1) o le_rfl (by omega) hs⟩
                    · have hbe : b = m₁ := by omega
                      refine ⟨HObj.hlist ys, by simp [hLookup, hbe], ?_⟩
                      simp only [hobjInSeg, List.all_eq_true] at hall ⊢
                      exact fun x hx =>
                        hvalInSeg_mono m m m₁ (m₁ + 1) x le_rfl (by omega) (hall x hx)
              | hdict fs =>
                  simp only [Option.bind_eq_bind, Option.bind_eq_some] at heq
                  obtain ⟨⟨h₁, ys, m₁⟩, hce, hres⟩ := heq
                  simp only [Option.pure_def, Option.some.injEq, Prod.mk.injEq] at hres
                  obtain ⟨e1, e2, e3⟩ := hres
                  subst e1; subst e2; subst e3
                  obtain ⟨hm₁, ha₁, hall, hseg⟩ :=
                    copyFields_post (deepcopy fuel) (deepcopy_post fuel) fs h m h₁ ys m₁ hce
                  refine ⟨by omega, ?_, ?_, ?_⟩
                  · intro b hb
                    rw [hLookup_cons_ne _ _ _ _ (by omega)]
                    exact ha₁ b hb
                  · simp only [hvalInSeg, Bool.and_eq_true, decide_eq_true_eq]
                    omega
                  · intro b hbm hbm'
                    by_cases hb₁ : b < m₁
                    · obtain ⟨o, ho, hs⟩ := hseg b hbm hb₁
                      exact ⟨o, by rw [hLookup_cons_ne _ _ _ _ (by omega)]; exact ho,
                        hobjInSeg_mono m m m₁ (m₁ + 1) o le_rfl (by omega) hs⟩
                    · have hbe : b = m₁ := by omega
                      refine ⟨HObj.hdict ys, by simp [hLookup, hbe], ?_⟩
                      simp only [List.all_eq_true, hobjInSeg] at hall ⊢
                      intro kv hkv
                      exact hvalInSeg_mono m m m₁ (m₁ + 1) kv.2 le_rfl (by omega)
                        (hall kv.2 (List.mem_map_of_mem Prod.snd hkv))

theorem sGetF_inSeg (fs : List (String × HVal)) (k : String) (v : HVal) (lo hi : Nat)
    (ho : hobjInSeg lo hi (.hdict fs) = true) (hg : sGetF fs k = some v) :
    hvalInSeg lo hi v = true := by
  induction fs with
  | nil => simp [sGetF] at hg
  | cons e rest ih =>
      obtain ⟨k₀, v₀⟩ := e
      simp only [hobjInSeg, List.all_cons, Bool.and_eq_true] at ho
      rw [sGetF] at hg
      by_cases hk : k₀ = k
      · rw [if_pos hk] at hg
        cases hg
        exact ho.1
      · rw [if_neg hk] at hg
        exact ih (by simp [hobjInSeg, ho.2]) hg

theorem firstListFieldH_inSeg (h : Heap) (fs : List (String × HVal)) (v : HVal) (lo hi : Nat)
    (ho : hobjInSeg lo hi (.hdict fs) = true) (hg : firstListFieldH h fs = some v) :
    hvalInSeg lo hi v = true := by
  induction fs with
  | nil => simp [firstListFieldH] at hg
  | cons e rest ih =>
      obtain ⟨k₀, v₀⟩ := e
      simp only [hobjInSeg, List.all_cons, Bool.and_eq_true] at ho
      rw [firstListFieldH] at hg
      by_cases hcond : (isListH h v₀ && decide (k₀ ≠ "count")) = true
      · rw [if_pos hcond] at hg
        cases hg
        exact ho.1
      · rw [if_neg (by simpa using hcond)] at hg
        exact ih (by simp [hobjInSeg, ho.2]) hg

theorem iter_some_inSeg (h : Heap) (lo hi : Nat) (w : HVal) (elems : List HVal)
    (hseg : ∀ b, lo ≤ b → b < hi → ∃ o, hLookup h b = some o ∧ hobjInSeg lo hi o = true)
    (hw : hvalInSeg lo hi w = true)
    (hiter : iterH h (some w) = some elems) :
    elems.all (hvalInSeg lo hi) = true := by
  cases w with
  | href b =>
      have hb : lo ≤ b ∧ b < hi := by
        simpa [hvalInSeg, Bool.and_eq_true] using hw
      obtain ⟨o, ho, hos⟩ := hseg b hb.1 hb.2
      rw [iterH, ho] at hiter
      cases o with
      | hlist xs =>
          cases hiter
          simpa [hobjInSeg] using hos
      | hdict fs =>
          cases hiter
          simp only [List.all_eq_true]
          intro x hx
          obtain ⟨kv, _, rfl⟩ := List.mem_map.mp hx
          rfl
  | hstr s =>
      cases hiter
      simp only [List.all_eq_true]
      intro x hx
      obtain ⟨c, _, rfl⟩ := List.mem_map.mp hx
      rfl
  | hnull => simp [iterH] at hiter
  | hbool b => simp [iterH] at hiter
  | hint k => simp [iterH] at hiter

theorem extract_iter_inSeg (h : Heap) (lo hi : Nat) (c : HVal) (elems : List HVal)
    (hseg : ∀ b, lo ≤ b → b < hi → ∃ o, hLookup h b = some o ∧ hobjInSeg lo hi o = true)
    (hc : hvalInSeg lo hi c = true)
    (hiter : iterH h (extractInvListH h c) = some elems) :
    elems.all (hvalInSeg lo hi) = true := by
  cases c with
  | href a =>
      have ha : lo ≤ a ∧ a < hi := by
        simpa [hvalInSeg, Bool.and_eq_true] using hc
      obtain ⟨o, ho, hos⟩ := hseg a ha.1 ha.2
      cases o with
      | hdict fs =>
          simp only [extractInvListH, ho, extractFromObj] at hiter
          by_cases hd : (sGetF fs "data").isSome
          · rw [if_pos hd] at hiter
            obtain ⟨w, hw⟩ := Option.isSome_iff_exists.mp hd
            rw [hw] at hiter
            exact iter_some_inSeg h lo hi w elems hseg (sGetF_inSeg fs "data" w lo hi hos hw) hiter
          · rw [if_neg hd] at hiter
            by_cases hi2 : (sGetF fs "invitations").isSome
            · rw [if_pos hi2] at hiter
              obtain ⟨w, hw⟩ := Option.isSome_iff_exists.mp hi2
              rw [hw] at hiter
              exact iter_some_inSeg h lo hi w elems hseg
                (sGetF_inSeg fs "invitations" w lo hi hos hw) hiter
            · rw [if_neg hi2] at hiter
              cases hf : firstListFieldH h fs with
              | none =>
                  rw [hf] at hiter
                  cases hiter
                  rfl
              | some w =>
                  rw [hf] at hiter
                  exact iter_some_inSeg h lo hi w elems hseg
                    (firstListFieldH_inSeg h fs w lo hi hos hf) hiter
      | hlist xs =>
          simp only [extractInvListH, ho, extractFromObj] at hiter
          exact iter_some_inSeg h lo hi (.href a) elems hseg hc hiter
  | hnull =>
      cases hiter
      rfl
  | hbool b =>
      cases hiter
      rfl
  | hint k =>
      cases hiter
      rfl
  | hstr s =>
      cases hiter
      rfl

theorem specificLibsObj_frame (fuel : Nat) (lL : List (HVal × HVal)) (h₁ : Heap)
    (m a n : Nat) (fs₁ : List (String × HVal)) (o : HObj)
    (hm : n ≤ m) (ha : n ≤ a) :
    (∀ b, b < n →
      hLookup (specificLibsObj fuel lL h₁ m a fs₁ o).1 b = hLookup h₁ b) ∧
    n ≤ (specificLibsObj fuel lL h₁ m a fs₁ o).2 := by
  cases o with
  | hdict fs => exact ⟨fun _ _ => rfl, hm⟩
  | hlist xs =>
      simp only [specificLibsObj]
      by_cases he : (!xs.isEmpty) = true
      · rw [if_pos he]
        refine ⟨?_, by omega⟩
        intro b hb
        rw [hLookup_hSet_ne _ _ _ _ (by omega), hLookup_cons_ne _ _ _ _ (by omega)]
      · rw [if_neg he]
        exact ⟨fun _ _ => rfl, hm⟩

theorem specificLibsBlock_frame (fuel : Nat) (lL : List (HVal × HVal)) (h₁ : Heap)
    (m a n : Nat) (fs₁ : List (String × HVal))
    (hm : n ≤ m) (ha : n ≤ a) :
    (∀ b, b < n →
      hLookup (specificLibsBlock fuel lL h₁ m a fs₁).1 b = hLookup h₁ b) ∧
    n ≤ (specificLibsBlock fuel lL h₁ m a fs₁).2 := by
  cases hg : sGetF fs₁ "specific_libraries" with
  | none =>
      have he : specificLibsBlock fuel lL h₁ m a fs₁ = (h₁, m) := by
        rw [specificLibsBlock, hg]
      rw [he]
      exact ⟨fun _ _ => rfl, hm⟩
  | some sv =>
      have he : specificLibsBlock fuel lL h₁ m a fs₁ =
          specificLibsRef fuel lL h₁ m a fs₁ sv := by
        rw [specificLibsBlock, hg]
      rw [he]
      cases sv with
      | href c =>
          cases hl : hLookup h₁ c with
          | none =>
              have h2 : specificLibsRef fuel lL h₁ m a fs₁ (.href c) = (h₁, m) := by
                rw [specificLibsRef, hl]
              rw [h2]
              exact ⟨fun _ _ => rfl, hm⟩
          | some o =>
              have h2 : specificLibsRef fuel lL h₁ m a fs₁ (.href c) =
                  specificLibsObj fuel lL h₁ m a fs₁ o := by
                rw [specificLibsRef, hl]
              rw [h2]
              exact specificLibsObj_frame fuel lL h₁ m a n fs₁ o hm ha
      | hnull => exact ⟨fun _ _ => rfl, hm⟩
      | hbool b => exact ⟨fun _ _ => rfl, hm⟩
      | hint k => exact ⟨fun _ _ => rfl, hm⟩
      | hstr t => exact ⟨fun _ _ => rfl, hm⟩

theorem processInv_frame (fuel : Nat) (uL lL : List (HVal × HVal)) (h : Heap) (m : Nat)
    (v : HVal) (n : Nat) (hv : hvalRefGE n v = true) (hm : n ≤ m) :
    (∀ b, b < n → hLookup (processInv fuel uL lL (h, m) v).1 b = hLookup h b) ∧
    n ≤ (processInv fuel uL lL (h, m) v).2 := by
  cases v with
  | href a =>
      have ha : n ≤ a := by simpa [hvalRefGE] using hv
      cases hl : hLookup h a with
      | none =>
          have h2 : processInv fuel uL lL (h, m) (.href a) = (h, m) := by
            rw [processInv, hl]
          rw [h2]
          exact ⟨fun _ _ => rfl, hm⟩
      | some o =>
          have h2 : processInv fuel uL lL (h, m) (.href a) =
              processInvObj fuel uL lL h m a o := by
            rw [processInv, hl]
          rw [h2]
          cases o with
          | hlist xs => exact ⟨fun _ _ => rfl, hm⟩
          | hdict fs =>
              have h3 : processInvObj fuel uL lL h m a (.hdict fs) =
                  specificLibsBlock fuel lL (hSet h a (.hdict (usedByBlock h uL fs))) m a
                    (usedByBlock h uL fs) := rfl
              rw [h3]
              obtain ⟨hfr, hge⟩ :=
                specificLibsBlock_frame fuel lL (hSet h a (.hdict (usedByBlock h uL fs)))
                  m a n (usedByBlock h uL fs) hm ha
              refine ⟨?_, hge⟩
              intro b hb
              rw [hfr b hb, hLookup_hSet_ne _ _ _ _ (by omega)]
  | hnull => exact ⟨fun _ _ => rfl, hm⟩
  | hbool b => exact ⟨fun _ _ => rfl, hm⟩
  | hint k => exact ⟨fun _ _ => rfl, hm⟩
  | hstr t => exact ⟨fun _ _ => rfl, hm⟩

theorem enrichPassH_frame :
    ∀ (elems : List HVal) (fuel : Nat) (uL lL : List (HVal × HVal)) (h : Heap) (m n : Nat),
      elems.all (hvalRefGE n) = true → n ≤ m →
      (∀ b, b < n → hLookup (enrichPassH fuel uL lL elems h m).1 b = hLookup h b) ∧
      n ≤ (enrichPassH fuel uL lL elems h m).2
  | [], fuel, uL, lL, h, m, n, _, hm => ⟨fun _ _ => rfl, hm⟩
  | e :: elems, fuel, uL, lL, h, m, n, hall, hm => by
      simp only [List.all_cons, Bool.and_eq_true] at hall
      obtain ⟨hf₁, hge₁⟩ := processInv_frame fuel uL lL h m e n hall.1 hm
      have step : enrichPassH fuel uL lL (e :: elems) h m =
          enrichPassH fuel uL lL elems (processInv fuel uL lL (h, m) e).1
            (processInv fuel uL lL (h, m) e).2 := by
        simp [enrichPassH]
      obtain ⟨hf₂, hge₂⟩ :=
        enrichPassH_frame elems fuel uL lL (processInv fuel uL lL (h, m) e).1
          (processInv fuel uL lL (h, m) e).2 n hall.2 hge₁
      rw [step]
      exact ⟨fun b hb => (hf₂ b hb).trans (hf₁ b hb), hge₂⟩

theorem optMapList_congr (f g : α → Option β) (xs : List α)
    (h : ∀ x ∈ xs, f x = g x) : optMapList f xs = optMapList g xs := by
  induction xs with
  | nil => rfl
  | cons x xs ih =>
      simp only [optMapList]
      rw [h x (List.mem_cons_self x xs), ih (fun y hy => h y (List.mem_cons_of_mem x hy))]

theorem readTree_agree :
    ∀ (fuel : Nat) (h h' : Heap) (n : Nat) (v : HVal),
      heapClosedBelow h n = true →
      (∀ b, b < n → hLookup h' b = hLookup h b) →
      hvalRefBelow n v = true →
      readTree fuel h' v = readTree fuel h v
  | 0, _, _, _, _, _, _, _ => rfl
  | fuel + 1, h, h', n, v, hc, hag, hv => by
      cases v with
      | hnull => rfl
      | hbool b => rfl
      | hint k => rfl
      | hstr s => rfl
      | href a =>
          have ha : a < n := by simpa [hvalRefBelow] using hv
          rw [readTree, readTree, hag a ha]
          cases hl : hLookup h a with
          | none => rfl
          | some o =>
              have hrefs := (heapClosedBelow_lookup h n a o hc hl).2
              show readObj (readTree fuel h') o = readObj (readTree fuel h) o
              cases o with
              | hlist xs =>
                  simp only [hobjRefsBelow, List.all_eq_true] at hrefs
                  rw [readObj, readObj, optMapList_congr (readTree fuel h') (readTree fuel h) xs
                    (fun x hx => readTree_agree fuel h h' n x hc hag (hrefs x hx))]
              | hdict fs =>
                  simp only [hobjRefsBelow, List.all_eq_true] at hrefs
                  rw [readObj, readObj, optMapList_congr _ _ fs
                    (fun kv hkv => by
                      rw [readTree_agree fuel h h' n kv.2 hc hag (hrefs kv hkv)])]

theorem list_all_imp (p q : α → Bool) (xs : List α) (h : ∀ x, p x = true → q x = true)
    (hall : xs.all p = true) : xs.all q = true := by
  simp only [List.all_eq_true] at hall ⊢
  exact fun x hx => h x (hall x hx)

theorem enrichInvitationsHeap_frame (fuel : Nat) (h : Heap) (invRoot : HVal)
    (uL lL : List (HVal × HVal)) (n : Nat) (h₂ : Heap)
    (hc : heapClosedBelow h n = true)
    (henr : enrichInvitationsHeap fuel h invRoot uL lL n = some h₂) :
    ∀ b, b < n → hLookup h₂ b = hLookup h b := by
  simp only [enrichInvitationsHeap, Option.bind_eq_bind, Option.bind_eq_some] at henr
  obtain ⟨⟨h₁, c, m₁⟩, hdc, ⟨elems, hit, hres⟩⟩ := henr
  simp only [Option.pure_def, Option.some.injEq] at hres
  obtain ⟨hm₁, hag₁, hcseg, hseg⟩ := deepcopy_post fuel h invRoot n h₁ c m₁ hdc
  have helems : elems.all (hvalInSeg n m₁) = true :=
    extract_iter_inSeg h₁ n m₁ c elems hseg hcseg hit
  have hge : elems.all (hvalRefGE n) = true :=
    list_all_imp _ _ elems (fun x hx => hvalInSeg_refGE n m₁ x hx) helems
  obtain ⟨hfr, _⟩ := enrichPassH_frame elems fuel uL lL h₁ m₁ n hge hm₁
  intro b hb
  rw [← hres, hfr b hb, hag₁ b hb]

theorem isPrefixOf_append_self (pat t : List Char) : pat.isPrefixOf (pat ++ t) = true := by
  induction pat with
  | nil => simp [List.isPrefixOf]
  | cons c cs ih => simp [List.isPrefixOf, ih]

theorem isPrefixOf_head_ne (c x : Char) (pat cs : List Char) (hne : c ≠ x) :
    (c :: pat).isPrefixOf (x :: cs) = false := by
  simp [List.isPrefixOf, hne]

theorem replaceAllCAux_no_occ (c : Char) (pat rep : List Char) (hc : pat.head? = some c) :
    ∀ (fuel : Nat) (s : List Char), s.length ≤ fuel → c ∉ s →
      replaceAllCAux pat rep fuel s = s
  | 0, [], _, _ => rfl
  | 0, _ :: _, hlen, _ => by rfl
  | fuel + 1, [], _, _ => rfl
  | fuel + 1, x :: cs, hlen, hmem => by
      obtain ⟨pat', rfl⟩ : ∃ pat', pat = c :: pat' := by
        cases pat with
        | nil => cases hc
        | cons p ps =>
            simp only [List.head?] at hc
            cases hc
            exact ⟨ps, rfl⟩
      have hcx : c ≠ x := fun he => hmem (he ▸ List.mem_cons_self x cs)
      rw [replaceAllCAux, if_neg (by simp [isPrefixOf_head_ne c x pat' cs hcx])]
      rw [replaceAllCAux_no_occ c (c :: pat') rep hc fuel cs
        (by simpa using Nat.le_of_succ_le_succ hlen)
        (fun hm => hmem (List.mem_cons_of_mem x hm))]

theorem replaceAllC_prefix_eq (c : Char) (pat' t rep : List Char)
    (hno : c ∉ t) :
    replaceAllC (c :: pat') rep ((c :: pat') ++ t) = rep ++ t := by
  rw [replaceAllC]
  have hlen : ((c :: pat') ++ t).length = pat'.length + t.length + 1 := by
    simp only [List.cons_append, List.length_cons, List.length_append]
  rw [hlen]
  show replaceAllCAux (c :: pat') rep (pat'.length + t.length + 1) (c :: (pat' ++ t)) = rep ++ t
  rw [replaceAllCAux, if_pos (by simpa using isPrefixOf_append_self (c :: pat') t)]
  have hdrop : (pat' ++ t).drop ((c :: pat').length - 1) = t := by
    simp [List.drop_left]
  rw [hdrop]
  rw [replaceAllCAux_no_occ c (c :: pat') rep rfl (pat'.length + t.length) t (by omega) hno]

theorem replaceAllCAux_single_end (c : Char) :
    ∀ (fuel : Nat) (s : List Char), s.length + 1 ≤ fuel → c ∉ s →
      replaceAllCAux [c] [] fuel (s ++ [c]) = []  ++ s
  | 0, s, hlen, _ => by omega
  | fuel + 1, [], _, _ => by
      rw [List.nil_append, replaceAllCAux, if_pos (by simp [List.isPrefixOf])]
      cases fuel <;> simp [replaceAllCAux]
  | fuel + 1, x :: cs, hlen, hmem => by
      have hcx : c ≠ x := fun he => hmem (he ▸ List.mem_cons_self x cs)
      rw [List.cons_append, replaceAllCAux,
        if_neg (by simp [List.isPrefixOf, hcx])]
      rw [replaceAllCAux_single_end c fuel cs (by simpa using Nat.le_of_succ_le_succ hlen)
        (fun hm => hmem (List.mem_cons_of_mem x hm))]
      rfl

theorem replaceAllC_single_end (c : Char) (s : List Char) (hno : c ∉ s) :
    replaceAllC [c] [] (s ++ [c]) = s := by
  rw [replaceAllC]
  rw [replaceAllCAux_single_end c (s ++ [c]).length s (by simp) hno]
  rfl

theorem all_not_mem (s : List Char) (c : Char) (p : Char → Bool)
    (hall : s.all p = true) (hc : p c = false) : c ∉ s := fun hmem => by
  simp only [List.all_eq_true] at hall
  rw [hall c hmem] at hc
  cases hc

theorem digit_not_space (c : Char) (h : isDigitChar c = true) : pyIsSpace c = false := by
  simp only [isDigitChar, Bool.and_eq_true, decide_eq_true_eq] at h
  obtain ⟨h1, h2⟩ := h
  have hn1 : '0'.toNat ≤ c.toNat := h1
  have hn2 : c.toNat ≤ '9'.toNat := h2
  simp only [pyIsSpace]
  have hne : ∀ d : Char, d.toNat < '0'.toNat ∨ '9'.toNat < d.toNat → ¬(c = d) := by
    intro d hd he
    subst he
    omega
  simp [hne ' ' (by decide), hne '\t' (by decide), hne '\n' (by decide),
    hne '\r' (by decide), hne '\x0b' (by decide), hne '\x0c' (by decide)]

theorem dropWhile_eq_self_of_all_false (p : Char → Bool) (s : List Char)
    (h : ∀ x ∈ s, p x = false) : s.dropWhile p = s := by
  cases s with
  | nil => rfl
  | cons x xs =>
      rw [List.dropWhile_cons, if_neg (by simp [h x (List.mem_cons_self x xs)])]

theorem stripChars_digits (s : List Char) (hall : s.all isDigitChar = true) :
    stripChars s = s := by
  have hns : ∀ x ∈ s, pyIsSpace x = false := by
    simp only [List.all_eq_true] at hall
    exact fun x hx => digit_not_space x (hall x hx)
  rw [stripChars, dropWhile_eq_self_of_all_false pyIsSpace s hns,
    dropWhile_eq_self_of_all_false pyIsSpace s.reverse
      (fun x hx => hns x (List.mem_reverse.mp hx)),
    List.reverse_reverse]

theorem noConsecUnderscore_of_not_mem :
    ∀ (u : List Char), Char.ofNat 95 ∉ u → noConsecUnderscore u = true
  | [], _ => rfl
  | [_], _ => rfl
  | c₁ :: c₂ :: rest, hmem => by
      have h1 : ¬(c₁ = '_') := fun he => hmem (he ▸ List.mem_cons_self c₁ _)
      have hrec := noConsecUnderscore_of_not_mem (c₂ :: rest)
        (fun hm => hmem (List.mem_cons_of_mem c₁ hm))
      simp [noConsecUnderscore, h1, hrec]

theorem underscoresOK_of_not_mem (u : List Char) (hmem : '_' ∉ u) :
    underscoresOK u = true := by
  have hh : ¬(u.head? = some '_') := by
    intro hcon
    exact hmem (by cases u with
      | nil => cases hcon
      | cons x xs =>
          simp only [List.head?, Option.some.injEq] at hcon
          rw [hcon]
          exact List.mem_cons_self _ _)
  have hl : ¬(u.getLast? = some '_') := by
    intro hcon
    exact hmem (List.mem_of_mem_getLast? hcon)
  simp [underscoresOK, hh, hl, noConsecUnderscore_of_not_mem u hmem]

theorem digit_ne (c d : Char) (h : isDigitChar c = true) (hd : isDigitChar d = false) :
    ¬(c = d) := by
  intro he
  rw [he, hd] at h
  cases h

theorem pyIntParseCore_digits (s : List Char) (hne : s ≠ [])
    (hall : s.all isDigitChar = true) :
    pyIntParseCore s = some ((digitsVal s : Nat) : Int) := by
  have hhead : ∀ d : Char, isDigitChar d = false → ¬(s.head? = some d) := by
    intro d hd hcon
    cases s with
    | nil => cases hcon
    | cons x xs =>
        simp only [List.head?, Option.some.injEq] at hcon
        have hx : isDigitChar x = true := by
          simp only [List.all_cons, Bool.and_eq_true] at hall
          exact hall.1
        exact digit_ne x d hx hd hcon
  have hm : ¬(s.head? = some '-') := hhead (Char.ofNat 45) (by decide)
  have hp : ¬(s.head? = some '+') := hhead (Char.ofNat 43) (by decide)
  have hemp : s.isEmpty = false := by
    cases s with
    | nil => exact absurd rfl hne
    | cons x xs => rfl
  have hfilter : s.filter isDigitChar = s := by
    apply List.filter_eq_self.mpr
    simp only [List.all_eq_true] at hall
    exact fun a ha => hall a ha
  have hcond : (s.all (fun c => isDigitChar c || c = '_') && underscoresOK s) = true := by
    have h1 : s.all (fun c => isDigitChar c || c = '_') = true := by
      simp only [List.all_eq_true] at hall ⊢
      intro x hx
      simp [hall x hx]
    have h2 : underscoresOK s = true :=
      underscoresOK_of_not_mem s (all_not_mem s (Char.ofNat 95) isDigitChar hall (by decide))
    simp [h1, h2]
  simp [pyIntParseCore, hm, hp, hemp, hcond, hfilter]

theorem pyIntParse_digits (s : List Char) (hne : s ≠ [])
    (hall : s.all isDigitChar = true) :
    pyIntParse (String.mk s) = some ((digitsVal s : Nat) : Int) := by
  rw [pyIntParse]
  have hd : (String.mk s).data = s := rfl
  rw [hd, stripChars_digits s hall]
  exact pyIntParseCore_digits s hne hall

theorem parseUserRef_digits (s : List Char) (hne : s ≠ [])
    (hall : s.all isDigitChar = true) :
    parseUserRef ("<User " ++ String.mk s ++ ">") = some ((digitsVal s : Nat) : Int) := by
  have hlt : Char.ofNat 60 ∉ s ++ [Char.ofNat 62] := by
    intro hmem
    rcases List.mem_append.mp hmem with h | h
    · exact absurd rfl (digit_ne _ _
        (by simp only [List.all_eq_true] at hall; exact hall _ h) (by decide))
    · simp only [List.mem_singleton] at h
      cases h
  have hgt : Char.ofNat 62 ∉ s :=
    all_not_mem s (Char.ofNat 62) isDigitChar hall (by decide)
  have step1 : pyReplace ("<User " ++ String.mk s ++ ">") "<User " "" =
      String.mk (s ++ [Char.ofNat 62]) := by
    rw [pyReplace]
    apply congrArg String.mk
    show replaceAllC ('<' :: "User ".data) [] (('<' :: "User ".data) ++ (s ++ [Char.ofNat 62])) =
      s ++ [Char.ofNat 62]
    rw [replaceAllC_prefix_eq '<' "User ".data (s ++ [Char.ofNat 62]) [] hlt]
    rfl
  have step2 : pyReplace (String.mk (s ++ [Char.ofNat 62])) ">" "" = String.mk s := by
    rw [pyReplace]
    apply congrArg String.mk
    show replaceAllC [Char.ofNat 62] [] (s ++ [Char.ofNat 62]) = s
    exact replaceAllC_single_end (Char.ofNat 62) s hgt
  have step3 : pyStrip (String.mk s) = String.mk s := by
    rw [pyStrip]
    exact congrArg String.mk (stripChars_digits s hall)
  rw [parseUserRef, step1, step2, step3]
  exact pyIntParse_digits s hne hall

theorem dGet_dSet_self (m : List (PyVal × PyVal)) (k v : PyVal) :
    dGet (dSet m k v) k = some v := by
  induction m with
  | nil => simp [dSet, dGet]
  | cons e rest ih =>
      obtain ⟨k₀, v₀⟩ := e
      by_cases hk : k₀ = k
      · simp [dSet, dGet, hk]
      · simp [dSet, dGet, hk, ih]

theorem dGet_dSet_ne (m : List (PyVal × PyVal)) (k k' v : PyVal) (h : k' ≠ k) :
    dGet (dSet m k v) k' = dGet m k' := by
  induction m with
  | nil =>
      have hne : ¬(k = k') := fun he => h he.symm
      simp [dSet, dGet, hne]
  | cons e rest ih =>
      obtain ⟨k₀, v₀⟩ := e
      by_cases hk : k₀ = k
      · subst hk
        have : ¬(k₀ = k') := fun he => h (he.symm)
        simp [dSet, dGet, this]
      · by_cases hk' : k₀ = k'
        · simp [dSet, dGet, hk, hk', h]
        · simp [dSet, dGet, hk, hk', ih]

theorem dSet_keys_all (p : PyVal → Bool) (m : List (PyVal × PyVal)) (k v : PyVal)
    (hall : m.all (fun kv => p kv.1) = true) (hk : p k = true) :
    (dSet m k v).all (fun kv => p kv.1) = true := by
  induction m with
  | nil => simp [dSet, hk]
  | cons e rest ih =>
      obtain ⟨k₀, v₀⟩ := e
      simp only [List.all_cons, Bool.and_eq_true] at hall
      by_cases hke : k₀ = k
      · simp [dSet, hke, hall.1, hall.2, hk]
      · simp only [dSet, if_neg hke, List.all_cons, Bool.and_eq_true]
        exact ⟨hall.1, ih hall.2⟩

theorem buildUserLookupAux_keys_truthy :
    ∀ (us : List PyVal) (acc : List (PyVal × PyVal)),
      acc.all (fun kv => pyTruthy kv.1) = true →
      (buildUserLookupAux acc us).all (fun kv => pyTruthy kv.1) = true
  | [], acc, hacc => hacc
  | u :: rest, acc, hacc => by
      cases u with
      | pydict fs =>
          rw [buildUserLookupAux]
          by_cases ht : pyTruthy (dGetD fs (pystr "id") pynull) = true
          · rw [if_pos ht]
            exact buildUserLookupAux_keys_truthy rest _
              (dSet_keys_all pyTruthy acc _ _ hacc ht)
          · rw [if_neg ht]
            exact buildUserLookupAux_keys_truthy rest acc hacc
      | pynull => exact buildUserLookupAux_keys_truthy rest acc hacc
      | pybool b => exact buildUserLookupAux_keys_truthy rest acc hacc
      | pyint n => exact buildUserLookupAux_keys_truthy rest acc hacc
      | pystr t => exact buildUserLookupAux_keys_truthy rest acc hacc
      | pylist xs => exact buildUserLookupAux_keys_truthy rest acc hacc

theorem buildUserLookup_keys_truthy (us : List PyVal) :
    (buildUserLookup us).all (fun kv => pyTruthy kv.1) = true :=
  buildUserLookupAux_keys_truthy us [] rfl

theorem buildLibraryLookupAux_keys_truthy :
    ∀ (ls : List PyVal) (acc : List (PyVal × PyVal)),
      acc.all (fun kv => pyTruthy kv.1) = true →
      (buildLibraryLookupAux acc ls).all (fun kv => pyTruthy kv.1) = true
  | [], acc, hacc => hacc
  | l :: rest, acc, hacc => by
      cases l with
      | pydict fs =>
          rw [buildLibraryLookupAux]
          by_cases ht : pyTruthy (dGetD fs (pystr "id") pynull) = true
          · rw [if_pos ht]
            exact buildLibraryLookupAux_keys_truthy rest _
              (dSet_keys_all pyTruthy acc _ _ hacc ht)
          · rw [if_neg ht]
            exact buildLibraryLookupAux_keys_truthy rest acc hacc
      | pynull => exact buildLibraryLookupAux_keys_truthy rest acc hacc
      | pybool b => exact buildLibraryLookupAux_keys_truthy rest acc hacc
      | pyint n => exact buildLibraryLookupAux_keys_truthy rest acc hacc
      | pystr t => exact buildLibraryLookupAux_keys_truthy rest acc hacc
      | pylist xs => exact buildLibraryLookupAux_keys_truthy rest acc hacc

theorem buildLibraryLookup_keys_truthy (ls : List PyVal) :
    (buildLibraryLookup ls).all (fun kv => pyTruthy kv.1) = true :=
  buildLibraryLookupAux_keys_truthy ls [] rfl

theorem dGet_none_of_falsy (tbl : List (PyVal × PyVal)) (k : PyVal)
    (htbl : tbl.all (fun kv => pyTruthy kv.1) = true) (hk : pyTruthy k = false) :
    dGet tbl k = none := by
  induction tbl with
  | nil => rfl
  | cons e rest ih =>
      obtain ⟨k₀, v₀⟩ := e
      simp only [List.all_cons, Bool.and_eq_true] at htbl
      have hne : ¬(k₀ = k) := by
        intro he
        rw [he, hk] at htbl
        exact absurd htbl.1 (by simp)
      rw [dGet, if_neg hne]
      exact ih htbl.2

theorem dGet_truthy_key (tbl : List (PyVal × PyVal)) (k v : PyVal)
    (htbl : tbl.all (fun kv => pyTruthy kv.1) = true) (hg : dGet tbl k = some v) :
    pyTruthy k = true := by
  by_cases hk : pyTruthy k = true
  · exact hk
  · rw [dGet_none_of_falsy tbl k htbl (Bool.eq_false_iff.mpr hk)] at hg
    cases hg


/-- Sum of all histogram buckets. -/
def histTotal : List (PyVal × PyVal) → Int
  | [] => 0
  | kv :: rest => (match kv.2 with | pyint n => n | _ => 0) + histTotal rest

/-- The bucket a record is counted under, as the specification words
it: the record's grouping field, defaulting to `"unknown"` when the
field is missing. -/
def bucketOf (field : String) (r : PyVal) : PyVal :=
  match r with
  | pydict fs => dGetD fs (pystr field) (pystr "unknown")
  | _ => pystr "unknown"

theorem countIn_dSet (m : List (PyVal × PyVal)) (b b' : PyVal) (n : Int) :
    countIn (dSet m b' (pyint n)) b = if b = b' then n else countIn m b := by
  by_cases hb : b = b'
  · subst hb
    simp [countIn, dGet_dSet_self]
  · simp [countIn, dGet_dSet_ne m b' b (pyint n) hb, hb]

theorem histTotal_dSet (m : List (PyVal × PyVal)) (b : PyVal) (n : Int) :
    histTotal (dSet m b (pyint n)) = histTotal m - countIn m b + n := by
  induction m with
  | nil => simp [dSet, histTotal, countIn, dGet]
  | cons e rest ih =>
      obtain ⟨k₀, v₀⟩ := e
      by_cases hk : k₀ = b
      · subst hk
        simp only [dSet, if_pos rfl, histTotal, countIn, dGet, if_pos rfl]
        cases v₀ <;> simp <;> omega
      · simp only [dSet, if_neg hk, histTotal, countIn, dGet, if_neg hk]
        have := ih
        simp only [countIn] at this
        rw [this]
        omega

theorem histStep_dict (field : String) (acc : List (PyVal × PyVal))
    (fs : List (PyVal × PyVal)) :
    histStep field acc (pydict fs) =
      some (dSet acc (dGetD fs (pystr field) (pystr "unknown"))
        (pyint (countIn acc (dGetD fs (pystr field) (pystr "unknown")) + 1))) := rfl

theorem buildHistogramAux_spec (field : String) :
    ∀ (xs : List PyVal) (acc : List (PyVal × PyVal)),
      xs.all isDict = true →
      ∃ m, buildHistogramAux field acc xs = some m ∧
        histTotal m = histTotal acc + xs.length ∧
        ∀ b, countIn m b =
          countIn acc b + (xs.countP (fun r => decide (bucketOf field r = b)) : Int)
  | [], acc, _ => ⟨acc, rfl, by simp [histTotal], fun b => by simp⟩
  | r :: rest, acc, hall => by
      simp only [List.all_cons, Bool.and_eq_true] at hall
      cases r with
      | pydict fs =>
          obtain ⟨m, hm, htot, hcnt⟩ :=
            buildHistogramAux_spec field rest
              (dSet acc (dGetD fs (pystr field) (pystr "unknown"))
                (pyint (countIn acc (dGetD fs (pystr field) (pystr "unknown")) + 1)))
              hall.2
          refine ⟨m, ?_, ?_, ?_⟩
          · rw [buildHistogramAux, histStep_dict]
            exact hm
          · rw [htot, histTotal_dSet]
            simp only [List.length_cons]
            push_cast
            omega
          · intro b
            rw [hcnt b, countIn_dSet]
            rw [List.countP_cons]
            by_cases hb : b = dGetD fs (pystr field) (pystr "unknown")
            · rw [if_pos hb]
              have hce : countIn acc b = countIn acc (dGetD fs (pystr field) (pystr "unknown")) := by
                rw [hb]
              have hdec : decide (bucketOf field (pydict fs) = b) = true := by
                simp [bucketOf, hb]
              simp only [hdec]
              push_cast
              omega
            · rw [if_neg hb]
              have hdec : decide (bucketOf field (pydict fs) = b) = false := by
                rw [decide_eq_false_iff_not, bucketOf]
                exact fun he => hb he.symm
              simp only [hdec]
              push_cast
              omega
      | pynull => exact absurd hall.1 (by simp [isDict])
      | pybool bb => exact absurd hall.1 (by simp [isDict])
      | pyint n => exact absurd hall.1 (by simp [isDict])
      | pystr t => exact absurd hall.1 (by simp [isDict])
      | pylist ys => exact absurd hall.1 (by simp [isDict])

theorem buildHistogram_spec (field : String) (xs : List PyVal) (hall : xs.all isDict = true) :
    ∃ m, buildHistogram field xs = some m ∧
      histTotal m = xs.length ∧
      ∀ b, countIn m b = (xs.countP (fun r => decide (bucketOf field r = b)) : Int) := by
  obtain ⟨m, hm, htot, hcnt⟩ := buildHistogramAux_spec field xs [] hall
  refine ⟨m, hm, by simpa [histTotal] using htot, fun b => by simpa [countIn, dGet] using hcnt b⟩

theorem firstListField_at (pre : List (PyVal × PyVal)) (k v : PyVal)
    (post : List (PyVal × PyVal))
    (hpre : pre.all (fun kv => !(isList kv.2 && decide (kv.1 ≠ pystr "count"))) = true)
    (hk : k ≠ pystr "count") (hv : isList v = true) :
    firstListField (pre ++ (k, v) :: post) = v := by
  induction pre with
  | nil => simp [firstListField, hv, hk]
  | cons e rest ih =>
      simp only [List.all_cons, Bool.and_eq_true] at hpre
      obtain ⟨k₀, v₀⟩ := e
      by_cases hl : isList v₀ = true
      · have hkc : k₀ = pystr "count" := by
          rcases (by simpa using hpre.1 : isList v₀ = false ∨ k₀ = pystr "count") with h | h
          · rw [h] at hl
            cases hl
          · exact h
        rw [List.cons_append, firstListField, if_neg (by simp [hkc])]
        exact ih hpre.2
      · have hlf : isList v₀ = false := Bool.eq_false_iff.mpr hl
        rw [List.cons_append, firstListField, if_neg (by simp [hlf])]
        exact ih hpre.2

theorem firstListField_scalar (fs : List (PyVal × PyVal))
    (hscalar : fs.all (fun kv => isScalar kv.2) = true) :
    firstListField fs = pylist [] := by
  induction fs with
  | nil => rfl
  | cons e rest ih =>
      simp only [List.all_cons, Bool.and_eq_true] at hscalar
      obtain ⟨k₀, v₀⟩ := e
      have hnl : isList v₀ = false := by
        cases v₀ <;> first | rfl | (exact absurd hscalar.1 (by simp [isScalar]))
      rw [firstListField, if_neg (by simp [hnl])]
      exact ih hscalar.2

/-- C1 (amended): for every endpoint name and record list `L`, the
shape extraction returns `L` unchanged for a bare list, for
`{"data": L}`, for `{"<entity>": L}`, and for a dict whose first
list-valued field (other than one named `"count"`) is `L` alongside
non-list fields — the last provided the dict carries no `"data"` key
and no entity-name key, since those keys take priority and are returned
without a list check (see the counterexample). -/
theorem c1_normalize_preserves_list (entity : String) (L : List PyVal)
    (pre : List (PyVal × PyVal)) (k : PyVal) (post : List (PyVal × PyVal))
    (hpre : pre.all (fun kv => !(isList kv.2 && decide (kv.1 ≠ pystr "count"))) = true)
    (hk : k ≠ pystr "count")
    (hnodata : dMem (pre ++ (k, pylist L) :: post) (pystr "data") = false)
    (hnoentity : dMem (pre ++ (k, pylist L) :: post) (pystr entity) = false) :
    normalizePayload entity (pylist L) = pylist L ∧
    normalizePayload entity (pydict [(pystr "data", pylist L)]) = pylist L ∧
    normalizePayload entity (pydict [(pystr entity, pylist L)]) = pylist L ∧
    normalizePayload entity (pydict (pre ++ (k, pylist L) :: post)) = pylist L := by
  refine ⟨rfl, ?_, ?_, ?_⟩
  · simp [normalizePayload, dMem, dGet, dGetD]
  · by_cases he : entity = "data"
    · subst he
      simp [normalizePayload, dMem, dGet, dGetD]
    · have hne : ¬(pystr entity = pystr "data") := fun hcon => he (by injection hcon)
      simp [normalizePayload, dMem, dGet, dGetD, hne]
  · rw [normalizePayload]
    rw [if_neg (by simp [hnodata]), if_neg (by simp [hnoentity])]
    exact firstListField_at pre k (pylist L) post hpre hk rfl

/-- Witness for C1 at concrete inputs, one per payload shape. -/
theorem c1_normalize_preserves_list_witness :
    normalizePayload "users" (pylist [pyint 1]) = pylist [pyint 1] ∧
    normalizePayload "users" (pydict [(pystr "data", pylist [pyint 1])]) = pylist [pyint 1] ∧
    normalizePayload "users" (pydict [(pystr "users", pylist [pyint 1])]) = pylist [pyint 1] ∧
    normalizePayload "users"
      (pydict [(pystr "total", pyint 3), (pystr "items", pylist [pyint 1])]) =
      pylist [pyint 1] :=
  c1_normalize_preserves_list "users" [pyint 1] [(pystr "total", pyint 3)]
    (pystr "items") [] (by decide) (by decide) (by decide) (by decide)

/-- C1 counterexample: on `{"data": 5, "items": [1]}` — a dict whose
first list-valued non-"count" field is `[1]` alongside scalar fields —
extraction returns the scalar under `"data"` rather than the list,
because the `"data"` key is taken without checking its value is a
list. -/
theorem c1_counterexample :
    normalizePayload "users"
      (pydict [(pystr "data", pyint 5), (pystr "items", pylist [pyint 1])]) = pyint 5 ∧
    pyint 5 ≠ pylist [pyint 1] := by decide

/-- C2 (amended): extraction is a total function; it returns the empty
sequence for `None`, an empty dict, an empty list, and a dict of only
scalar fields that carries neither a `"data"` nor an entity-name key.
When `"data"` holds a non-list scalar, extraction returns that scalar
instead, and the enrichment pass then raises on the non-iterable
(modelled as `none`). -/
theorem c2_normalize_total (entity : String) (fs : List (PyVal × PyVal))
    (hscalar : fs.all (fun kv => isScalar kv.2) = true)
    (hnodata : dMem fs (pystr "data") = false)
    (hnoentity : dMem fs (pystr entity) = false) :
    normalizePayload entity pynull = pylist [] ∧
    normalizePayload entity (pydict []) = pylist [] ∧
    normalizePayload entity (pylist []) = pylist [] ∧
    normalizePayload entity (pydict fs) = pylist [] ∧
    enrichInvitations (pydict [(pystr "users", pylist [])])
      (pydict [(pystr "data", pyint 5)]) = none := by
  refine ⟨rfl, by simp [normalizePayload, dMem, dGet, firstListField], rfl, ?_, by decide⟩
  rw [normalizePayload]
  rw [if_neg (by simp [hnodata]), if_neg (by simp [hnoentity])]
  exact firstListField_scalar fs hscalar

/-- Witness for C2 at a concrete scalar-only dict. -/
theorem c2_normalize_total_witness :
    normalizePayload "invitations" pynull = pylist [] ∧
    normalizePayload "invitations" (pydict []) = pylist [] ∧
    normalizePayload "invitations" (pylist []) = pylist [] ∧
    normalizePayload "invitations"
      (pydict [(pystr "a", pyint 1), (pystr "b", pystr "x")]) = pylist [] ∧
    enrichInvitations (pydict [(pystr "users", pylist [])])
      (pydict [(pystr "data", pyint 5)]) = none :=
  c2_normalize_total "invitations" [(pystr "a", pyint 1), (pystr "b", pystr "x")]
    (by decide) (by decide) (by decide)

/-- C2 counterexample: `{"data": 5}` is a JSON-decodable dict of only
scalar fields, yet extraction returns the scalar `5` rather than an
empty sequence, and the enrichment built on it raises (modelled as
`none`) when iterating the non-iterable — contradicting both the
empty-sequence clause and the never-raises clause. -/
theorem c2_counterexample :
    normalizePayload "invitations" (pydict [(pystr "data", pyint 5)]) = pyint 5 ∧
    pyint 5 ≠ pylist [] ∧
    enrichInvitations (pydict [(pystr "users", pylist [])])
      (pydict [(pystr "data", pyint 5)]) = none := by decide

/-- C3: for every combination of per-endpoint outcomes, one refresh
returns a snapshot holding exactly the six fixed endpoint keys in fetch
order; each key stores its own endpoint's decoded payload on success and
the `None` sentinel on failure, independently of every other endpoint's
outcome — and the aggregation itself is a total function, so the refresh
does not raise even when all six sub-fetches fail. -/
theorem c3_snapshot_independent (rS rU rI rL rV rA : Except Unit PyVal) :
    (asyncUpdateData rS rU rI rL rV rA).map Prod.fst =
      [pystr "status", pystr "users", pystr "invitations", pystr "libraries",
       pystr "servers", pystr "api_keys"] ∧
    (asyncUpdateData rS rU rI rL rV rA).length = 6 ∧
    dGetS (asyncUpdateData rS rU rI rL rV rA) "status" = some (snapshotValue rS) ∧
    dGetS (asyncUpdateData rS rU rI rL rV rA) "users" = some (snapshotValue rU) ∧
    dGetS (asyncUpdateData rS rU rI rL rV rA) "invitations" = some (snapshotValue rI) ∧
    dGetS (asyncUpdateData rS rU rI rL rV rA) "libraries" = some (snapshotValue rL) ∧
    dGetS (asyncUpdateData rS rU rI rL rV rA) "servers" = some (snapshotValue rV) ∧
    dGetS (asyncUpdateData rS rU rI rL rV rA) "api_keys" = some (snapshotValue rA) :=
  ⟨rfl, rfl, rfl, rfl, rfl, rfl, rfl, rfl⟩

theorem userRefStr_startsWith (s : List Char) :
    pyStartsWith ("<User " ++ String.mk s ++ ">") "<User " = true := by
  show ("<User ".data).isPrefixOf ("<User ".data ++ (s ++ [Char.ofNat 62])) = true
  exact isPrefixOf_append_self _ _

theorem isSuffixOf_append_singleton (c : Char) (xs : List Char) :
    ([c]).isSuffixOf (xs ++ [c]) = true := by
  simp [List.isSuffixOf, List.reverse_append, List.isPrefixOf]

theorem userRefStr_endsWith (s : List Char) :
    pyEndsWith ("<User " ++ String.mk s ++ ">") ">" = true := by
  show ([Char.ofNat 62]).isSuffixOf (("<User " ++ String.mk s).data ++ [Char.ofNat 62]) = true
  exact isSuffixOf_append_singleton _ _

theorem resolveUsedBy_userRef_hit (U : List (PyVal × PyVal)) (s : List Char) (lab : PyVal)
    (hne : s ≠ []) (hall : s.all isDigitChar = true)
    (hget : dGet U (pyint (digitsVal s : Nat)) = some lab) :
    resolveUsedBy U (pystr ("<User " ++ String.mk s ++ ">")) = lab := by
  rw [resolveUsedBy,
    if_pos (by simp [userRefStr_startsWith s, userRefStr_endsWith s]),
    parseUserRef_digits s hne hall]
  simp [dMem, dGetD, hget]

theorem resolveUsedBy_str_nomatch (U : List (PyVal × PyVal)) (t : String)
    (hnm : (pyStartsWith t "<User " && pyEndsWith t ">") = false) :
    resolveUsedBy U (pystr t) = pystr t := by
  rw [resolveUsedBy, if_neg (by simp [hnm])]

theorem resolveUsedBy_str_noparse (U : List (PyVal × PyVal)) (t : String)
    (hm : (pyStartsWith t "<User " && pyEndsWith t ">") = true)
    (hp : parseUserRef t = none) :
    resolveUsedBy U (pystr t) = pystr t := by
  rw [resolveUsedBy, if_pos (by simp [hm]), hp]

theorem resolveUsedBy_str_miss (U : List (PyVal × PyVal)) (t : String) (n : Int)
    (hm : (pyStartsWith t "<User " && pyEndsWith t ">") = true)
    (hp : parseUserRef t = some n) (hmiss : dGet U (pyint n) = none) :
    resolveUsedBy U (pystr t) = pystr t := by
  rw [resolveUsedBy, if_pos (by simp [hm]), hp]
  simp [dMem, hmiss]

theorem resolveUsedBy_dict_hit (us : List PyVal) (ufs : List (PyVal × PyVal))
    (uid lab : PyVal) (hid : dGetS ufs "id" = some uid)
    (hget : dGet (buildUserLookup us) uid = some lab) :
    resolveUsedBy (buildUserLookup us) (pydict ufs) = lab := by
  have hufs : ufs ≠ [] := by
    intro he
    rw [he] at hid
    cases hid
  have htr : pyTruthy uid = true :=
    dGet_truthy_key (buildUserLookup us) uid lab (buildUserLookup_keys_truthy us) hget
  rw [resolveUsedBy, if_pos (by simpa [pyTruthy, List.isEmpty_iff] using hufs)]
  have hgd : dGetD ufs (pystr "id") pynull = uid := by
    simp [dGetD, dGetS] at hid ⊢
    simp [hid]
  rw [hgd, if_pos (by simp [htr, dMem, hget])]
  simp [dGetD, hget]

theorem resolveUsedBy_dict_miss (U : List (PyVal × PyVal)) (ufs : List (PyVal × PyVal))
    (uid : PyVal) (hid : dGetS ufs "id" = some uid)
    (hmiss : dGet U uid = none) :
    resolveUsedBy U (pydict ufs) = pydict ufs := by
  rw [resolveUsedBy]
  by_cases hne : ufs.isEmpty
  · rw [if_neg (by simp [pyTruthy, hne])]
  · rw [if_pos (by simp [pyTruthy, hne])]
    have hgd : dGetD ufs (pystr "id") pynull = uid := by
      simp [dGetD, dGetS] at hid ⊢
      simp [hid]
    rw [hgd, if_neg (by simp [dMem, hmiss])]

theorem resolveUsedBy_dict_noid (U : List (PyVal × PyVal)) (ufs : List (PyVal × PyVal))
    (hid : dGetS ufs "id" = none) :
    resolveUsedBy U (pydict ufs) = pydict ufs := by
  rw [resolveUsedBy]
  by_cases hne : ufs.isEmpty
  · rw [if_neg (by simp [pyTruthy, hne])]
  · rw [if_pos (by simp [pyTruthy, hne])]
    have hgd : dGetD ufs (pystr "id") pynull = pynull := by
      simp [dGetD, dGetS] at hid ⊢
      simp [hid]
    rw [hgd, if_neg (by simp [pyTruthy])]

theorem resolveUsedBy_int_hit (U : List (PyVal × PyVal)) (k : Int) (lab : PyVal)
    (hget : dGet U (pyint k) = some lab) :
    resolveUsedBy U (pyint k) = lab := by
  rw [resolveUsedBy, if_pos (by simp [dMem, hget])]
  simp [dGetD, hget]

theorem resolveUsedBy_int_miss (U : List (PyVal × PyVal)) (k : Int)
    (hmiss : dGet U (pyint k) = none) :
    resolveUsedBy U (pyint k) = pyint k := by
  rw [resolveUsedBy, if_neg (by simp [dMem, hmiss])]

theorem resolveUsedBy_other (U : List (PyVal × PyVal)) (b : Bool) (xs : List PyVal) :
    resolveUsedBy U pynull = pynull ∧
    resolveUsedBy U (pybool b) = pybool b ∧
    resolveUsedBy U (pylist xs) = pylist xs :=
  ⟨rfl, rfl, rfl⟩

theorem resolveLibElem_int_hit (L : List (PyVal × PyVal)) (k : Int) (lab : PyVal)
    (hget : dGet L (pyint k) = some lab) :
    resolveLibElem L (pyint k) = lab := by
  rw [resolveLibElem, if_pos (by simp [dMem, hget])]
  simp [dGetD, hget]

theorem resolveLibElem_int_miss (L : List (PyVal × PyVal)) (k : Int)
    (hmiss : dGet L (pyint k) = none) :
    resolveLibElem L (pyint k) = pystr (pyStr (pyint k)) := by
  rw [resolveLibElem, if_neg (by simp [dMem, hmiss])]

theorem resolveLibElem_dict_hit (L : List (PyVal × PyVal)) (dfs : List (PyVal × PyVal))
    (lid lab : PyVal) (hid : dGetS dfs "id" = some lid)
    (hget : dGet L lid = some lab) :
    resolveLibElem L (pydict dfs) = lab := by
  rw [resolveLibElem, if_pos (by simp [dMem, dGetS] at hid ⊢; simp [hid])]
  have hgd : dGetD dfs (pystr "id") pynull = lid := by
    simp [dGetD, dGetS] at hid ⊢
    simp [hid]
  rw [hgd, if_pos (by simp [dMem, hget])]
  simp [dGetD, hget]

theorem resolveLibElem_dict_miss (L : List (PyVal × PyVal)) (dfs : List (PyVal × PyVal))
    (lid : PyVal) (hid : dGetS dfs "id" = some lid)
    (hmiss : dGet L lid = none) :
    resolveLibElem L (pydict dfs) =
      dGetD dfs (pystr "name") (pystr ("Library " ++ pyStr lid)) := by
  rw [resolveLibElem, if_pos (by simp [dMem, dGetS] at hid ⊢; simp [hid])]
  have hgd : dGetD dfs (pystr "id") pynull = lid := by
    simp [dGetD, dGetS] at hid ⊢
    simp [hid]
  rw [hgd, if_neg (by simp [dMem, hmiss])]

theorem resolveLibElem_dict_noid (L : List (PyVal × PyVal)) (dfs : List (PyVal × PyVal))
    (hid : dGetS dfs "id" = none) :
    resolveLibElem L (pydict dfs) = pystr (pyStr (pydict dfs)) := by
  rw [resolveLibElem, if_neg (by simp [dMem, dGetS] at hid ⊢; simp [hid])]

theorem resolveLibElem_other (L : List (PyVal × PyVal)) (b : Bool) (t : String)
    (xs : List PyVal) :
    resolveLibElem L pynull = pystr (pyStr pynull) ∧
    resolveLibElem L (pybool b) = pystr (pyStr (pybool b)) ∧
    resolveLibElem L (pystr t) = pystr (pyStr (pystr t)) ∧
    resolveLibElem L (pylist xs) = pystr (pyStr (pylist xs)) :=
  ⟨rfl, rfl, rfl, rfl⟩

theorem transformInvitation_used_by (U L : List (PyVal × PyVal))
    (fs : List (PyVal × PyVal)) (ub : PyVal)
    (hub : dGetS fs "used_by" = some ub) :
    pyDictGetS (transformInvitation U L (pydict fs)) "used_by" =
      some (resolveUsedBy U ub) := by
  rw [transformInvitation, hub]
  have h1 : dGetS (dSet fs (pystr "used_by") (resolveUsedBy U ub)) "used_by" =
      some (resolveUsedBy U ub) := dGet_dSet_self fs (pystr "used_by") (resolveUsedBy U ub)
  cases hsl : dGetS (dSet fs (pystr "used_by") (resolveUsedBy U ub)) "specific_libraries" with
  | none => exact h1
  | some sv =>
      show dGet (specLibsValue L (dSet fs (pystr "used_by") (resolveUsedBy U ub)) sv)
        (pystr "used_by") = some (resolveUsedBy U ub)
      cases sv with
      | pylist xs =>
          rw [specLibsValue]
          by_cases hxe : (!xs.isEmpty) = true
          · rw [if_pos hxe]
            rw [dGet_dSet_ne _ _ _ _ (by decide)]
            exact h1
          · rw [if_neg hxe]
            exact h1
      | pynull => exact h1
      | pybool b => exact h1
      | pyint n => exact h1
      | pystr t => exact h1
      | pydict g => exact h1

theorem transformInvitation_used_by_absent (U L : List (PyVal × PyVal))
    (fs : List (PyVal × PyVal)) (hub : dGetS fs "used_by" = none) :
    pyDictGetS (transformInvitation U L (pydict fs)) "used_by" = none := by
  rw [transformInvitation, hub]
  cases hsl : dGetS fs "specific_libraries" with
  | none => exact hub
  | some sv =>
      show dGet (specLibsValue L fs sv) (pystr "used_by") = none
      cases sv with
      | pylist xs =>
          rw [specLibsValue]
          by_cases hxe : (!xs.isEmpty) = true
          · rw [if_pos hxe]
            rw [dGet_dSet_ne _ _ _ _ (by decide)]
            exact hub
          · rw [if_neg hxe]
            exact hub
      | pynull => exact hub
      | pybool b => exact hub
      | pyint n => exact hub
      | pystr t => exact hub
      | pydict g => exact hub

theorem transformInvitation_spec_libs (U L : List (PyVal × PyVal))
    (fs : List (PyVal × PyVal)) (xs : List PyVal)
    (hsl : dGetS fs "specific_libraries" = some (pylist xs)) (hne : xs ≠ []) :
    pyDictGetS (transformInvitation U L (pydict fs)) "specific_libraries" =
      some (pylist (xs.map (resolveLibElem L))) := by
  rw [transformInvitation]
  cases hub : dGetS fs "used_by" with
  | none =>
      rw [hsl]
      show dGet (specLibsValue L fs (pylist xs)) (pystr "specific_libraries") = _
      rw [specLibsValue, if_pos (by simpa [List.isEmpty_iff] using hne)]
      exact dGet_dSet_self _ _ _
  | some ub =>
      have hsl1 : dGetS (dSet fs (pystr "used_by") (resolveUsedBy U ub)) "specific_libraries" =
          some (pylist xs) := by
        rw [dGetS, dGet_dSet_ne _ _ _ _ (by decide)]
        exact hsl
      rw [hsl1]
      show dGet (specLibsValue L (dSet fs (pystr "used_by") (resolveUsedBy U ub)) (pylist xs))
        (pystr "specific_libraries") = _
      rw [specLibsValue, if_pos (by simpa [List.isEmpty_iff] using hne)]
      exact dGet_dSet_self _ _ _

/-- C4 (amended): with the lookup tables built from arbitrary user and
library records, enrichment of an invitation record resolves `used_by`
from the three accepted shapes — a `"<User N>"`-style string, a mapping
with an `id` field, a bare integer — through the user table, leaving the
field unchanged on a lookup miss, a failed numeric parse, or any other
shape; and it replaces a present, nonempty `specific_libraries` list
elementwise, preserving length and order, an element becoming its label
when resolvable, an unresolvable mapping falling back to its own `name`
value (taken as-is, hence a string only when the record's `name` is one
— see the counterexample) or `"Library {id}"`, and any other element its
string representation. -/
theorem c4_invitation_enrichment (us ls : List PyVal) (fs : List (PyVal × PyVal)) :
    (∀ ub, dGetS fs "used_by" = some ub →
      pyDictGetS (transformInvitation (buildUserLookup us) (buildLibraryLookup ls) (pydict fs))
        "used_by" = some (resolveUsedBy (buildUserLookup us) ub)) ∧
    (∀ s lab, s ≠ [] → s.all isDigitChar = true →
      dGet (buildUserLookup us) (pyint (digitsVal s : Nat)) = some lab →
      resolveUsedBy (buildUserLookup us) (pystr ("<User " ++ String.mk s ++ ">")) = lab) ∧
    (∀ t, (pyStartsWith t "<User " && pyEndsWith t ">") = false →
      resolveUsedBy (buildUserLookup us) (pystr t) = pystr t) ∧
    (∀ t, (pyStartsWith t "<User " && pyEndsWith t ">") = true → parseUserRef t = none →
      resolveUsedBy (buildUserLookup us) (pystr t) = pystr t) ∧
    (∀ t n, (pyStartsWith t "<User " && pyEndsWith t ">") = true → parseUserRef t = some n →
      dGet (buildUserLookup us) (pyint n) = none →
      resolveUsedBy (buildUserLookup us) (pystr t) = pystr t) ∧
    (∀ ufs uid lab, dGetS ufs "id" = some uid →
      dGet (buildUserLookup us) uid = some lab →
      resolveUsedBy (buildUserLookup us) (pydict ufs) = lab) ∧
    (∀ ufs uid, dGetS ufs "id" = some uid → dGet (buildUserLookup us) uid = none →
      resolveUsedBy (buildUserLookup us) (pydict ufs) = pydict ufs) ∧
    (∀ ufs, dGetS ufs "id" = none →
      resolveUsedBy (buildUserLookup us) (pydict ufs) = pydict ufs) ∧
    (∀ k lab, dGet (buildUserLookup us) (pyint k) = some lab →
      resolveUsedBy (buildUserLookup us) (pyint k) = lab) ∧
    (∀ k, dGet (buildUserLookup us) (pyint k) = none →
      resolveUsedBy (buildUserLookup us) (pyint k) = pyint k) ∧
    (∀ b xs, resolveUsedBy (buildUserLookup us) pynull = pynull ∧
      resolveUsedBy (buildUserLookup us) (pybool b) = pybool b ∧
      resolveUsedBy (buildUserLookup us) (pylist xs) = pylist xs) ∧
    (∀ xs, dGetS fs "specific_libraries" = some (pylist xs) → xs ≠ [] →
      pyDictGetS (transformInvitation (buildUserLookup us) (buildLibraryLookup ls) (pydict fs))
        "specific_libraries" =
        some (pylist (xs.map (resolveLibElem (buildLibraryLookup ls)))) ∧
      (xs.map (resolveLibElem (buildLibraryLookup ls))).length = xs.length) ∧
    (∀ k lab, dGet (buildLibraryLookup ls) (pyint k) = some lab →
      resolveLibElem (buildLibraryLookup ls) (pyint k) = lab) ∧
    (∀ k, dGet (buildLibraryLookup ls) (pyint k) = none →
      resolveLibElem (buildLibraryLookup ls) (pyint k) = pystr (pyStr (pyint k))) ∧
    (∀ dfs lid lab, dGetS dfs "id" = some lid →
      dGet (buildLibraryLookup ls) lid = some lab →
      resolveLibElem (buildLibraryLookup ls) (pydict dfs) = lab) ∧
    (∀ dfs lid, dGetS dfs "id" = some lid → dGet (buildLibraryLookup ls) lid = none →
      resolveLibElem (buildLibraryLookup ls) (pydict dfs) =
        dGetD dfs (pystr "name") (pystr ("Library " ++ pyStr lid))) ∧
    (∀ dfs, dGetS dfs "id" = none →
      resolveLibElem (buildLibraryLookup ls) (pydict dfs) = pystr (pyStr (pydict dfs))) ∧
    (∀ b t xs, resolveLibElem (buildLibraryLookup ls) pynull = pystr (pyStr pynull) ∧
      resolveLibElem (buildLibraryLookup ls) (pybool b) = pystr (pyStr (pybool b)) ∧
      resolveLibElem (buildLibraryLookup ls) (pystr t) = pystr (pyStr (pystr t)) ∧
      resolveLibElem (buildLibraryLookup ls) (pylist xs) = pystr (pyStr (pylist xs))) := by
  refine ⟨fun ub hub => transformInvitation_used_by _ _ fs ub hub,
    fun s lab hne hall hget => resolveUsedBy_userRef_hit _ s lab hne hall hget,
    fun t hnm => resolveUsedBy_str_nomatch _ t hnm,
    fun t hm hp => resolveUsedBy_str_noparse _ t hm hp,
    fun t n hm hp hmiss => resolveUsedBy_str_miss _ t n hm hp hmiss,
    fun ufs uid lab hid hget => resolveUsedBy_dict_hit us ufs uid lab hid hget,
    fun ufs uid hid hmiss => resolveUsedBy_dict_miss _ ufs uid hid hmiss,
    fun ufs hid => resolveUsedBy_dict_noid _ ufs hid,
    fun k lab hget => resolveUsedBy_int_hit _ k lab hget,
    fun k hmiss => resolveUsedBy_int_miss _ k hmiss,
    fun b xs => resolveUsedBy_other _ b xs,
    fun xs hsl hne => ⟨transformInvitation_spec_libs _ _ fs xs hsl hne, List.length_map _ _⟩,
    fun k lab hget => resolveLibElem_int_hit _ k lab hget,
    fun k hmiss => resolveLibElem_int_miss _ k hmiss,
    fun dfs lid lab hid hget => resolveLibElem_dict_hit _ dfs lid lab hid hget,
    fun dfs lid hid hmiss => resolveLibElem_dict_miss _ dfs lid hid hmiss,
    fun dfs hid => resolveLibElem_dict_noid _ dfs hid,
    fun b t xs => resolveLibElem_other _ b t xs⟩

/-- Witness for C4 at the specification's example: invitation
`{"id": 10, "used_by": "<User 2>", "specific_libraries": [5, 99]}` with
user table from `{"id": 2, "username": "al"}` and library table from
`{"id": 5, "name": "Movies", "server_name": "ServerA"}` yields
`used_by = "al"` and `specific_libraries = ["Movies (ServerA)", "99"]`. -/
theorem c4_invitation_enrichment_witness :
    pyDictGetS
      (transformInvitation
        (buildUserLookup [pydict [(pystr "id", pyint 2), (pystr "username", pystr "al")]])
        (buildLibraryLookup [pydict [(pystr "id", pyint 5), (pystr "name", pystr "Movies"),
          (pystr "server_name", pystr "ServerA")]])
        (pydict [(pystr "id", pyint 10), (pystr "used_by", pystr "<User 2>"),
          (pystr "specific_libraries", pylist [pyint 5, pyint 99])])) "used_by" =
      some (pystr "al") ∧
    pyDictGetS
      (transformInvitation
        (buildUserLookup [pydict [(pystr "id", pyint 2), (pystr "username", pystr "al")]])
        (buildLibraryLookup [pydict [(pystr "id", pyint 5), (pystr "name", pystr "Movies"),
          (pystr "server_name", pystr "ServerA")]])
        (pydict [(pystr "id", pyint 10), (pystr "used_by", pystr "<User 2>"),
          (pystr "specific_libraries", pylist [pyint 5, pyint 99])])) "specific_libraries" =
      some (pylist [pystr "Movies (ServerA)", pystr "99"]) := by
  have h := c4_invitation_enrichment
    [pydict [(pystr "id", pyint 2), (pystr "username", pystr "al")]]
    [pydict [(pystr "id", pyint 5), (pystr "name", pystr "Movies"),
      (pystr "server_name", pystr "ServerA")]]
    [(pystr "id", pyint 10), (pystr "used_by", pystr "<User 2>"),
      (pystr "specific_libraries", pylist [pyint 5, pyint 99])]
  refine ⟨?_, ?_⟩
  · rw [h.1 (pystr "<User 2>") (by decide)]
    decide
  · exact ((h.2.2.2.2.2.2.2.2.2.2.2.1 [pyint 5, pyint 99] (by decide) (by decide)).1).trans
      (by decide)

/-- C4 counterexample: an unresolvable mapping element whose own `name`
is the integer `5` makes enrichment emit that integer, so the produced
`specific_libraries` is not a sequence of strings as the claim states. -/
theorem c4_counterexample :
    pyDictGetS
      (transformInvitation
        (buildUserLookup [pydict [(pystr "id", pyint 2), (pystr "username", pystr "al")]])
        (buildLibraryLookup [pydict [(pystr "id", pyint 5), (pystr "name", pystr "Movies"),
          (pystr "server_name", pystr "ServerA")]])
        (pydict [(pystr "specific_libraries",
          pylist [pydict [(pystr "id", pyint 99), (pystr "name", pyint 5)]])]))
      "specific_libraries" = some (pylist [pyint 5]) ∧
    isStr (pyint 5) = false := by decide

/-- C6 (amended): the user lookup maps a record's id to
`"{username} ({email})"` when both fields are present with truthy
(non-empty) values — Python truthiness, not mere presence, decides, see
the counterexample — to whichever single one is truthy otherwise, and to
`"User {id}"` when neither is; records whose id is missing or falsy are
not inserted.  On the specification's three-record example the table has
exactly the two expected entries. -/
theorem c6_user_lookup_display :
    (∀ fs, pyTruthy (dGetD fs (pystr "email") pynull) = true →
      pyTruthy (dGetD fs (pystr "username") pynull) = true →
      userDisplayName fs = pystr (pyStr (dGetD fs (pystr "username") pynull) ++ " (" ++
        pyStr (dGetD fs (pystr "email") pynull) ++ ")")) ∧
    (∀ fs, pyTruthy (dGetD fs (pystr "email") pynull) = true →
      pyTruthy (dGetD fs (pystr "username") pynull) = false →
      userDisplayName fs = dGetD fs (pystr "email") pynull) ∧
    (∀ fs, pyTruthy (dGetD fs (pystr "email") pynull) = false →
      pyTruthy (dGetD fs (pystr "username") pynull) = true →
      userDisplayName fs = dGetD fs (pystr "username") pynull) ∧
    (∀ fs, pyTruthy (dGetD fs (pystr "email") pynull) = false →
      pyTruthy (dGetD fs (pystr "username") pynull) = false →
      userDisplayName fs = pystr ("User " ++ pyStr (dGetD fs (pystr "id") pynull))) ∧
    (∀ fs, pyTruthy (dGetD fs (pystr "id") pynull) = true →
      buildUserLookup [pydict fs] = [(dGetD fs (pystr "id") pynull, userDisplayName fs)]) ∧
    (∀ fs, pyTruthy (dGetD fs (pystr "id") pynull) = false →
      buildUserLookup [pydict fs] = []) ∧
    (∀ v, isDict v = false → buildUserLookup [v] = []) ∧
    buildUserLookup
      [pydict [(pystr "id", pyint 1), (pystr "username", pystr "bob"),
        (pystr "email", pystr "b@x.com")],
       pydict [(pystr "id", pyint 2), (pystr "username", pystr "al")],
       pydict [(pystr "no_id", pybool true)]] =
      [(pyint 1, pystr "bob (b@x.com)"), (pyint 2, pystr "al")] := by
  refine ⟨?_, ?_, ?_, ?_, ?_, ?_, ?_, by decide⟩
  · intro fs h1 h2
    simp [userDisplayName, h1, h2]
  · intro fs h1 h2
    simp [userDisplayName, h1, h2]
  · intro fs h1 h2
    simp [userDisplayName, h1, h2]
  · intro fs h1 h2
    simp [userDisplayName, h1, h2]
  · intro fs h1
    rw [buildUserLookup, buildUserLookupAux, if_pos h1]
    rfl
  · intro fs h1
    rw [buildUserLookup, buildUserLookupAux, if_neg (by simp [h1])]
    rfl
  · intro v hv
    cases v <;> first | rfl | (exact absurd hv (by simp [isDict]))

/-- Witness for C6: both-truthy and username-only records resolve as
claimed, and a falsy-id record is skipped. -/
theorem c6_user_lookup_display_witness :
    userDisplayName [(pystr "id", pyint 1), (pystr "username", pystr "bob"),
      (pystr "email", pystr "b@x.com")] = pystr "bob (b@x.com)" ∧
    buildUserLookup [pydict [(pystr "id", pyint 0), (pystr "username", pystr "zero")]] = [] := by
  have h := c6_user_lookup_display
  refine ⟨?_, h.2.2.2.2.2.1 [(pystr "id", pyint 0), (pystr "username", pystr "zero")] (by decide)⟩
  rw [h.1 [(pystr "id", pyint 1), (pystr "username", pystr "bob"),
    (pystr "email", pystr "b@x.com")] (by decide) (by decide)]
  decide

/-- C6 counterexample: in `{"id": 1, "username": "al", "email": ""}`
both fields are present, yet the built label is `"al"`, not
`"al ()"` — the code tests truthiness, and the empty string is falsy. -/
theorem c6_counterexample :
    buildUserLookup [pydict [(pystr "id", pyint 1), (pystr "username", pystr "al"),
      (pystr "email", pystr "")]] = [(pyint 1, pystr "al")] ∧
    pystr "al" ≠ pystr "al ()" := by decide

/-- C10: neither lookup table ever holds a key whose id value is falsy
(`0`, `""`, `None`, `False`, or an empty container): such records are
never inserted, every lookup at a falsy key misses, and in particular an
invitation whose `used_by` is the bare integer `0` is left unchanged by
enrichment. -/
theorem c10_no_falsy_keys (us ls : List PyVal) (fs : List (PyVal × PyVal)) :
    (buildUserLookup us).all (fun kv => pyTruthy kv.1) = true ∧
    (buildLibraryLookup ls).all (fun kv => pyTruthy kv.1) = true ∧
    (∀ k, pyTruthy k = false → dGet (buildUserLookup us) k = none) ∧
    (∀ k, pyTruthy k = false → dGet (buildLibraryLookup ls) k = none) ∧
    (dGetS fs "used_by" = some (pyint 0) →
      pyDictGetS (transformInvitation (buildUserLookup us) (buildLibraryLookup ls) (pydict fs))
        "used_by" = some (pyint 0)) := by
  refine ⟨buildUserLookup_keys_truthy us, buildLibraryLookup_keys_truthy ls,
    fun k hk => dGet_none_of_falsy _ k (buildUserLookup_keys_truthy us) hk,
    fun k hk => dGet_none_of_falsy _ k (buildLibraryLookup_keys_truthy ls) hk,
    fun hub => ?_⟩
  rw [transformInvitation_used_by _ _ fs (pyint 0) hub,
    resolveUsedBy_int_miss _ 0
      (dGet_none_of_falsy _ _ (buildUserLookup_keys_truthy us) rfl)]

/-- Witness for C10: a user record carrying id `0` is not inserted, and
an invitation referencing id `0` comes back unchanged. -/
theorem c10_no_falsy_keys_witness :
    (buildUserLookup [pydict [(pystr "id", pyint 0), (pystr "username", pystr "zero")]]).all
      (fun kv => pyTruthy kv.1) = true ∧
    dGet (buildUserLookup [pydict [(pystr "id", pyint 0), (pystr "username", pystr "zero")]])
      (pyint 0) = none ∧
    pyDictGetS
      (transformInvitation
        (buildUserLookup [pydict [(pystr "id", pyint 0), (pystr "username", pystr "zero")]])
        (buildLibraryLookup []) (pydict [(pystr "used_by", pyint 0)])) "used_by" =
      some (pyint 0) := by
  have h := c10_no_falsy_keys
    [pydict [(pystr "id", pyint 0), (pystr "username", pystr "zero")]] []
    [(pystr "used_by", pyint 0)]
  exact ⟨h.1, h.2.2.1 (pyint 0) rfl, h.2.2.2.2 (by decide)⟩

theorem listSensorAttrs_spec (attrs : List (PyVal × PyVal)) (data : PyVal) (L : List PyVal)
    (tk hk f : String) (hview : viewList data = pylist L) (hall : L.all isDict = true) :
    (L = [] → listSensorAttrs attrs data tk hk f = some (dSet attrs (pystr tk) (pyint 0))) ∧
    (L ≠ [] → ∃ m, buildHistogram f L = some m ∧
      listSensorAttrs attrs data tk hk f =
        some (dSet (dSet attrs (pystr tk) (pyint L.length)) (pystr hk) (pydict m)) ∧
      histTotal m = L.length ∧
      countIn m (pystr "unknown") =
        (L.countP (fun r => decide (bucketOf f r = pystr "unknown")) : Int)) := by
  constructor
  · intro he
    subst he
    rw [listSensorAttrs]
    simp [hview, pyLen, pyTruthy]
  · intro hne
    obtain ⟨m, hm, htot, hcnt⟩ := buildHistogram_spec f L hall
    refine ⟨m, hm, ?_, htot, hcnt (pystr "unknown")⟩
    rw [listSensorAttrs]
    simp [hview, pyLen, pyTruthy, List.isEmpty_iff, hne, iterElems, hm]

theorem countActiveAux_some :
    ∀ (xs : List PyVal) (acc : Nat), xs.all isDict = true →
      ∃ a, countActiveAux acc xs = some a
  | [], acc, _ => ⟨acc, rfl⟩
  | r :: rest, acc, hall => by
      simp only [List.all_cons, Bool.and_eq_true] at hall
      cases r with
      | pydict fs =>
          exact countActiveAux_some rest _ hall.2
      | pynull => exact absurd hall.1 (by simp [isDict])
      | pybool b => exact absurd hall.1 (by simp [isDict])
      | pyint n => exact absurd hall.1 (by simp [isDict])
      | pystr t => exact absurd hall.1 (by simp [isDict])
      | pylist ys => exact absurd hall.1 (by simp [isDict])

theorem apiKeysAttrs_spec (attrs : List (PyVal × PyVal)) (data : PyVal) (L : List PyVal)
    (hview : viewList data = pylist L) (hall : L.all isDict = true) :
    (L = [] → apiKeysAttrs attrs data = some (dSet attrs (pystr "total_api_keys") (pyint 0))) ∧
    (L ≠ [] → ∃ a, countActive L = some a ∧
      apiKeysAttrs attrs data =
        some (dSet (dSet (dSet attrs (pystr "total_api_keys") (pyint L.length))
          (pystr "active_api_keys") (pyint a))
          (pystr "inactive_api_keys") (pyint ((L.length : Int) - (a : Int))))) := by
  constructor
  · intro he
    subst he
    rw [apiKeysAttrs]
    simp [hview, pyLen, pyTruthy]
  · intro hne
    obtain ⟨a, ha⟩ := countActiveAux_some L 0 hall
    refine ⟨a, ha, ?_⟩
    rw [apiKeysAttrs]
    simp [hview, pyLen, pyTruthy, List.isEmpty_iff, hne, iterElems, countActive, ha]

/-- Attribute of one sensor for one coordinator snapshot. -/
def attrAt (coordData : PyVal) (sensorType key : String) : Option PyVal :=
  (sensorAttrs coordData sensorType).bind (fun a => pyDictGetS a key)

theorem sensorAttrs_users (payload : PyVal) (hpn : ¬(payload = pynull))
    (hld : (isList payload || isDict payload) = true) :
    sensorAttrs (pydict [(pystr "users", payload)]) "users" =
      (listSensorAttrs [(pystr "raw_data", payload)] payload
        "total_users" "users_by_server" "server_type").map pydict := by
  rw [sensorAttrs]
  have hd : dGetD [(pystr "users", payload)] (pystr "users") pynull = payload := by
    simp [dGetD, dGet]
  rw [hd, if_neg hpn]
  simp only [Option.map_eq_bind]
  simp [hld, Option.bind]
  cases listSensorAttrs [(pystr "raw_data", payload)] payload
    "total_users" "users_by_server" "server_type" <;> rfl

theorem sensorAttrs_libraries (payload : PyVal) (hpn : ¬(payload = pynull))
    (hld : (isList payload || isDict payload) = true) :
    sensorAttrs (pydict [(pystr "libraries", payload)]) "libraries" =
      (listSensorAttrs [(pystr "raw_data", payload)] payload
        "total_libraries" "libraries_by_server" "server_name").map pydict := by
  rw [sensorAttrs]
  have hd : dGetD [(pystr "libraries", payload)] (pystr "libraries") pynull = payload := by
    simp [dGetD, dGet]
  rw [hd, if_neg hpn]
  simp only [Option.map_eq_bind]
  simp [hld, Option.bind]
  cases listSensorAttrs [(pystr "raw_data", payload)] payload
    "total_libraries" "libraries_by_server" "server_name" <;> rfl

theorem sensorAttrs_servers (payload : PyVal) (hpn : ¬(payload = pynull))
    (hld : (isList payload || isDict payload) = true) :
    sensorAttrs (pydict [(pystr "servers", payload)]) "servers" =
      (listSensorAttrs [(pystr "raw_data", payload)] payload
        "total_servers" "servers_by_type" "server_type").map pydict := by
  rw [sensorAttrs]
  have hd : dGetD [(pystr "servers", payload)] (pystr "servers") pynull = payload := by
    simp [dGetD, dGet]
  rw [hd, if_neg hpn]
  simp only [Option.map_eq_bind]
  simp [hld, Option.bind]
  cases listSensorAttrs [(pystr "raw_data", payload)] payload
    "total_servers" "servers_by_type" "server_type" <;> rfl

theorem sensorAttrs_api_keys (payload : PyVal) (hpn : ¬(payload = pynull))
    (hld : (isList payload || isDict payload) = true) :
    sensorAttrs (pydict [(pystr "api_keys", payload)]) "api_keys" =
      (apiKeysAttrs [(pystr "raw_data", payload)] payload).map pydict := by
  rw [sensorAttrs]
  have hd : dGetD [(pystr "api_keys", payload)] (pystr "api_keys") pynull = payload := by
    simp [dGetD, dGet]
  rw [hd, if_neg hpn]
  simp only [Option.map_eq_bind]
  simp [hld, Option.bind]
  cases apiKeysAttrs [(pystr "raw_data", payload)] payload <;> rfl

theorem enrichInvitations_some (cfs : List (PyVal × PyVal)) (payload : PyVal)
    (Ln : List PyVal)
    (hview : normalizePayload "invitations" payload = pylist Ln)
    (husers : dGetD cfs (pystr "users") pynull = pynull)
    (hlibs : dGetD cfs (pystr "libraries") pynull = pynull) :
    ∃ en, enrichInvitations (pydict cfs) payload = some en := by
  rw [enrichInvitations]
  by_cases ht : (!pyTruthy payload || !pyTruthy (pydict cfs)) = true
  · rw [if_pos ht]
    exact ⟨payload, rfl⟩
  · rw [if_neg ht]
    refine ⟨pylist (Ln.map (transformInvitation [] [])), ?_⟩
    simp [husers, hlibs, pyTruthy, hview, transformIterated, Option.bind]

theorem sensorAttrs_invitations (payload en : PyVal) (hpn : ¬(payload = pynull))
    (hld : (isList payload || isDict payload) = true)
    (hen : enrichInvitations (pydict [(pystr "invitations", payload)]) payload = some en) :
    sensorAttrs (pydict [(pystr "invitations", payload)]) "invitations" =
      (listSensorAttrs [(pystr "invitations", en)] payload
        "total_invitations" "invitations_by_status" "status").map pydict := by
  rw [sensorAttrs]
  have hd : dGetD [(pystr "invitations", payload)] (pystr "invitations") pynull = payload := by
    simp [dGetD, dGet]
  rw [hd, if_neg hpn]
  simp only [Option.map_eq_bind]
  simp [hld, hen, Option.bind]
  cases listSensorAttrs [(pystr "invitations", en)] payload
    "total_invitations" "invitations_by_status" "status" <;> rfl

theorem listSensor_extract (attrs0 : List (PyVal × PyVal)) (payload : PyVal) (L : List PyVal)
    (tk hk f : String) (coord : PyVal) (e : String)
    (hsa : sensorAttrs coord e = (listSensorAttrs attrs0 payload tk hk f).map pydict)
    (hview : viewList payload = pylist L) (hall : L.all isDict = true)
    (hne : (pystr tk : PyVal) ≠ pystr hk) :
    attrAt coord e tk = some (pyint L.length) ∧
    (L ≠ [] → ∃ m, buildHistogram f L = some m ∧ attrAt coord e hk = some (pydict m) ∧
      histTotal m = (L.length : Int) ∧
      countIn m (pystr "unknown") =
        (L.countP (fun r => decide (bucketOf f r = pystr "unknown")) : Int)) := by
  obtain ⟨hemp, hfull⟩ := listSensorAttrs_spec attrs0 payload L tk hk f hview hall
  by_cases hL : L = []
  · subst hL
    rw [hemp rfl] at hsa
    refine ⟨?_, fun h => absurd rfl h⟩
    rw [attrAt, hsa]
    show dGet (dSet attrs0 (pystr tk) (pyint 0)) (pystr tk) = some (pyint 0)
    exact dGet_dSet_self _ _ _
  · obtain ⟨m, hm, heq, htot, hcnt⟩ := hfull hL
    rw [heq] at hsa
    refine ⟨?_, fun _ => ⟨m, hm, ?_, htot, hcnt⟩⟩
    · rw [attrAt, hsa]
      show dGet (dSet (dSet attrs0 (pystr tk) (pyint L.length)) (pystr hk) (pydict m))
        (pystr tk) = some (pyint L.length)
      rw [dGet_dSet_ne _ _ _ _ hne]
      exact dGet_dSet_self _ _ _
    · rw [attrAt, hsa]
      show dGet (dSet (dSet attrs0 (pystr tk) (pyint L.length)) (pystr hk) (pydict m))
        (pystr hk) = some (pydict m)
      exact dGet_dSet_self _ _ _

/-- C7 (amended): for every list-bearing endpoint, a bare-list payload
and a `{"data": [...]}` payload yield `total_<entity>` equal to the
record count; a dict payload without a `"data"` key extracts an empty
view list here, so its total is 0 even when the records sit under the
entity-name key (see the counterexample).  When the list is nonempty,
users/invitations/libraries/servers expose a group-by histogram whose
counts sum to the record count — no record is dropped — with every
record whose grouping field is missing counted under `"unknown"`;
api_keys exposes active/inactive counts instead of a histogram. -/
theorem c7_derived_views (payload : PyVal) (L Ln : List PyVal)
    (hview : viewList payload = pylist L) (hall : L.all isDict = true)
    (hnorm : normalizePayload "invitations" payload = pylist Ln)
    (hpn : ¬(payload = pynull)) (hld : (isList payload || isDict payload) = true) :
    (attrAt (pydict [(pystr "users", payload)]) "users" "total_users" =
      some (pyint L.length) ∧
     (L ≠ [] → ∃ m, buildHistogram "server_type" L = some m ∧
       attrAt (pydict [(pystr "users", payload)]) "users" "users_by_server" =
         some (pydict m) ∧
       histTotal m = (L.length : Int) ∧
       countIn m (pystr "unknown") =
         (L.countP (fun r => decide (bucketOf "server_type" r = pystr "unknown")) : Int))) ∧
    (attrAt (pydict [(pystr "invitations", payload)]) "invitations" "total_invitations" =
      some (pyint L.length) ∧
     (L ≠ [] → ∃ m, buildHistogram "status" L = some m ∧
       attrAt (pydict [(pystr "invitations", payload)]) "invitations"
         "invitations_by_status" = some (pydict m) ∧
       histTotal m = (L.length : Int) ∧
       countIn m (pystr "unknown") =
         (L.countP (fun r => decide (bucketOf "status" r = pystr "unknown")) : Int))) ∧
    (attrAt (pydict [(pystr "libraries", payload)]) "libraries" "total_libraries" =
      some (pyint L.length) ∧
     (L ≠ [] → ∃ m, buildHistogram "server_name" L = some m ∧
       attrAt (pydict [(pystr "libraries", payload)]) "libraries" "libraries_by_server" =
         some (pydict m) ∧
       histTotal m = (L.length : Int) ∧
       countIn m (pystr "unknown") =
         (L.countP (fun r => decide (bucketOf "server_name" r = pystr "unknown")) : Int))) ∧
    (attrAt (pydict [(pystr "servers", payload)]) "servers" "total_servers" =
      some (pyint L.length) ∧
     (L ≠ [] → ∃ m, buildHistogram "server_type" L = some m ∧
       attrAt (pydict [(pystr "servers", payload)]) "servers" "servers_by_type" =
         some (pydict m) ∧
       histTotal m = (L.length : Int) ∧
       countIn m (pystr "unknown") =
         (L.countP (fun r => decide (bucketOf "server_type" r = pystr "unknown")) : Int))) ∧
    (attrAt (pydict [(pystr "api_keys", payload)]) "api_keys" "total_api_keys" =
      some (pyint L.length) ∧
     (L ≠ [] → ∃ a, countActive L = some a ∧
       attrAt (pydict [(pystr "api_keys", payload)]) "api_keys" "active_api_keys" =
         some (pyint a) ∧
       attrAt (pydict [(pystr "api_keys", payload)]) "api_keys" "inactive_api_keys" =
         some (pyint ((L.length : Int) - (a : Int))))) := by
  obtain ⟨en, hen⟩ :=
    enrichInvitations_some [(pystr "invitations", payload)] payload Ln hnorm
      (by simp [dGetD, dGet]) (by simp [dGetD, dGet])
  refine ⟨?_, ?_, ?_, ?_, ?_⟩
  · exact listSensor_extract [(pystr "raw_data", payload)] payload L
      "total_users" "users_by_server" "server_type" _ "users"
      (sensorAttrs_users payload hpn hld) hview hall (by decide)
  · exact listSensor_extract [(pystr "invitations", en)] payload L
      "total_invitations" "invitations_by_status" "status" _ "invitations"
      (sensorAttrs_invitations payload en hpn hld hen) hview hall (by decide)
  · exact listSensor_extract [(pystr "raw_data", payload)] payload L
      "total_libraries" "libraries_by_server" "server_name" _ "libraries"
      (sensorAttrs_libraries payload hpn hld) hview hall (by decide)
  · exact listSensor_extract [(pystr "raw_data", payload)] payload L
      "total_servers" "servers_by_type" "server_type" _ "servers"
      (sensorAttrs_servers payload hpn hld) hview hall (by decide)
  · obtain ⟨hemp, hfull⟩ :=
      apiKeysAttrs_spec [(pystr "raw_data", payload)] payload L hview hall
    have hsa := sensorAttrs_api_keys payload hpn hld
    by_cases hL : L = []
    · subst hL
      rw [hemp rfl] at hsa
      refine ⟨?_, fun h => absurd rfl h⟩
      rw [attrAt, hsa]
      show dGet (dSet [(pystr "raw_data", payload)] (pystr "total_api_keys") (pyint 0))
        (pystr "total_api_keys") = some (pyint 0)
      exact dGet_dSet_self _ _ _
    · obtain ⟨a, ha, heq⟩ := hfull hL
      rw [heq] at hsa
      refine ⟨?_, fun _ => ⟨a, ha, ?_, ?_⟩⟩
      · rw [attrAt, hsa]
        show dGet (dSet (dSet (dSet [(pystr "raw_data", payload)]
            (pystr "total_api_keys") (pyint L.length))
            (pystr "active_api_keys") (pyint a))
            (pystr "inactive_api_keys") (pyint ((L.length : Int) - (a : Int))))
          (pystr "total_api_keys") = some (pyint L.length)
        rw [dGet_dSet_ne _ _ _ _ (by decide), dGet_dSet_ne _ _ _ _ (by decide)]
        exact dGet_dSet_self _ _ _
      · rw [attrAt, hsa]
        show dGet (dSet (dSet (dSet [(pystr "raw_data", payload)]
            (pystr "total_api_keys") (pyint L.length))
            (pystr "active_api_keys") (pyint a))
            (pystr "inactive_api_keys") (pyint ((L.length : Int) - (a : Int))))
          (pystr "active_api_keys") = some (pyint a)
        rw [dGet_dSet_ne _ _ _ _ (by decide)]
        exact dGet_dSet_self _ _ _
      · rw [attrAt, hsa]
        show dGet (dSet (dSet (dSet [(pystr "raw_data", payload)]
            (pystr "total_api_keys") (pyint L.length))
            (pystr "active_api_keys") (pyint a))
            (pystr "inactive_api_keys") (pyint ((L.length : Int) - (a : Int))))
          (pystr "inactive_api_keys") = some (pyint ((L.length : Int) - (a : Int)))
        exact dGet_dSet_self _ _ _

/-- Witness for C7 at the specification's example: three invitation
records, two `"pending"` and one with no status, give a total of 3 and
the histogram `pending ↦ 2, unknown ↦ 1`. -/
theorem c7_derived_views_witness :
    attrAt (pydict [(pystr "invitations",
        pylist [pydict [(pystr "status", pystr "pending")],
          pydict [(pystr "status", pystr "pending")], pydict []])])
      "invitations" "total_invitations" = some (pyint 3) ∧
    attrAt (pydict [(pystr "invitations",
        pylist [pydict [(pystr "status", pystr "pending")],
          pydict [(pystr "status", pystr "pending")], pydict []])])
      "invitations" "invitations_by_status" =
      some (pydict [(pystr "pending", pyint 2), (pystr "unknown", pyint 1)]) :=
  ⟨(c7_derived_views
      (pylist [pydict [(pystr "status", pystr "pending")],
        pydict [(pystr "status", pystr "pending")], pydict []])
      [pydict [(pystr "status", pystr "pending")],
        pydict [(pystr "status", pystr "pending")], pydict []]
      [pydict [(pystr "status", pystr "pending")],
        pydict [(pystr "status", pystr "pending")], pydict []]
      (by decide) (by decide) (by decide) (by decide) (by decide)).2.1.1,
   by decide⟩

/-- C7 counterexample: the payload `{"invitations": [{}]}` carries one
record under the entity-name key — the shape normalizer itself extracts
that one-element list — yet the derived view reports
`total_invitations = 0`, because `extra_state_attributes` only looks
under a `"data"` key or at a bare list. -/
theorem c7_counterexample :
    normalizePayload "invitations" (pydict [(pystr "invitations", pylist [pydict []])]) =
      pylist [pydict []] ∧
    attrAt (pydict [(pystr "invitations", pydict [(pystr "invitations", pylist [pydict []])])])
      "invitations" "total_invitations" = some (pyint 0) ∧
    pyint 0 ≠ pyint 1 := by decide

/-- Tokens that fail the `isdigit` test after stripping contribute
nothing to the parsed server-id list. -/
theorem parseServerIds_nil_of_no_digit (s : String)
    (h : ∀ t ∈ pySplitComma s, pyIsDigit (pyStrip t) = false) :
    parseServerIds s = [] := by
  unfold parseServerIds
  rw [List.filterMap_eq_nil]
  intro t ht
  rw [h t ht]
  simp

/-- C8 (amended: the guard accepts exactly the tokens that strip to
nonempty digit strings, hence nonnegative — not positive — integers).
When no comma-separated token of `server_ids` strips to a digit string,
the create-invitation service stops at the validation guard, and the
create-and-email service likewise issues no create request, queries no
servers and sends no email, ending in one of its two validation
outcomes. -/
theorem c8_no_parseable_ids_validation (c : InvitationCall) (c' : EmailCall)
    (hs : c'.server_ids = c.server_ids)
    (h : ∀ t ∈ pySplitComma c.server_ids, pyIsDigit (pyStrip t) = false) :
    createInvitationService c = .validationError ∧
    ∀ cr sr ok,
      (sendInvitationEmailService c' cr sr ok).createRequested = none ∧
      (sendInvitationEmailService c' cr sr ok).getServersCalled = false ∧
      (sendInvitationEmailService c' cr sr ok).emailSent = false ∧
      ((sendInvitationEmailService c' cr sr ok).outcome = .validationEmail ∨
        (sendInvitationEmailService c' cr sr ok).outcome = .validationServerIds) := by
  have hp : parseServerIds c.server_ids = [] := parseServerIds_nil_of_no_digit _ h
  have hp' : parseServerIds c'.server_ids = [] := by rw [hs]; exact hp
  refine ⟨?_, ?_⟩
  · unfold createInvitationService
    rw [hp]
    rfl
  · intro cr sr ok
    unfold sendInvitationEmailService
    cases hm : emailMatch c'.recipient_email with
    | false => simp
    | true => simp [hp']

/-- Witness for C8: `"abc, -1"` has no token that strips to a digit
string (`"-1"` fails `isdigit` because of the sign), and both services
stop at validation. -/
theorem c8_no_parseable_ids_validation_witness :
    (∀ t ∈ pySplitComma "abc, -1", pyIsDigit (pyStrip t) = false) ∧
    createInvitationService ⟨"abc, -1", none, none, none, none, none, none⟩ =
      .validationError ∧
    (sendInvitationEmailService
      ⟨⟨"abc, -1", none, none, none, none, none, none⟩, "a@b.co", none⟩
      (.ok pynull) (.ok pynull) true).createRequested = none :=
  ⟨by decide,
   (c8_no_parseable_ids_validation ⟨"abc, -1", none, none, none, none, none, none⟩
      ⟨⟨"abc, -1", none, none, none, none, none, none⟩, "a@b.co", none⟩
      rfl (by decide)).1,
   ((c8_no_parseable_ids_validation ⟨"abc, -1", none, none, none, none, none, none⟩
      ⟨⟨"abc, -1", none, none, none, none, none, none⟩, "a@b.co", none⟩
      rfl (by decide)).2 (.ok pynull) (.ok pynull) true).1⟩

/-- C8 counterexample to the claim as stated: `server_ids = "0"` has no
token parsing to a *positive* integer — the only parsed id is `0` — yet
the guard passes and a create request is issued with `server_ids = [0]`.
The create-and-email service likewise issues the create request. -/
theorem c8_counterexample :
    parseServerIds "0" = [0] ∧ ¬((0 : Int) < 0) ∧
    createInvitationService ⟨"0", none, none, none, none, none, none⟩ =
      .requested [(pystr "server_ids", pylist [pyint 0]),
        (pystr "unlimited", pybool true)] ∧
    (sendInvitationEmailService
      ⟨⟨"0", none, none, none, none, none, none⟩, "a@b.co", none⟩
      (.ok pynull) (.ok pynull) true).createRequested =
      some [(pystr "server_ids", pylist [pyint 0]),
        (pystr "unlimited", pybool true)] := by decide

/-- C9: when the recipient email fails the regex check, the
create-and-email service performs zero network calls — no create
request, no servers query, no SMTP hand-off — and ends in its email
validation outcome, whatever the oracle responses would have been. -/
theorem c9_invalid_email_no_network (c : EmailCall)
    (h : emailMatch c.recipient_email = false) :
    ∀ cr sr ok, sendInvitationEmailService c cr sr ok =
      ⟨.validationEmail, none, false, false⟩ := by
  intro cr sr ok
  unfold sendInvitationEmailService
  simp [h]

/-- Witness for C9 at the spec's own example input `"not-an-email"`. -/
theorem c9_invalid_email_no_network_witness :
    emailMatch "not-an-email" = false ∧
    sendInvitationEmailService
      ⟨⟨"1", none, none, none, none, none, none⟩, "not-an-email", none⟩
      (.ok pynull) (.ok pynull) true =
      ⟨.validationEmail, none, false, false⟩ :=
  ⟨by decide,
   c9_invalid_email_no_network
     ⟨⟨"1", none, none, none, none, none, none⟩, "not-an-email", none⟩
     (by decide) (.ok pynull) (.ok pynull) true⟩

/-- C5: enrichment never mutates its input.  On a heap closed below the
allocation counter `n`, a successful run of the enrichment leaves every
pre-existing address — the invitations payload, the users and libraries
snapshots, and everything they reach — bound to exactly the object it
held before, and any value read out of the original region (such as the
serialised invitations root) is unchanged. -/
theorem c5_enrichment_preserves_input (fuel : Nat) (h : Heap) (invRoot : HVal)
    (uL lL : List (HVal × HVal)) (n : Nat) (h₂ : Heap) (rf : Nat) (probe : HVal)
    (hc : heapClosedBelow h n = true)
    (hp : hvalRefBelow n probe = true)
    (henr : enrichInvitationsHeap fuel h invRoot uL lL n = some h₂) :
    (∀ b, b < n → hLookup h₂ b = hLookup h b) ∧
    readTree rf h₂ probe = readTree rf h probe := by
  have hfr := enrichInvitationsHeap_frame fuel h invRoot uL lL n h₂ hc henr
  exact ⟨hfr, readTree_agree rf h h₂ n probe hc hfr hp⟩

/-- A small concrete coordinator heap: address 2 is the invitations
payload (a one-element list), address 0 the invitation record with a
`"<User 2>"` reference and a library list at address 1. -/
def c5ExHeap : Heap :=
  [(0, .hdict [("used_by", .hstr "<User 2>"), ("specific_libraries", .href 1)]),
   (1, .hlist [.hint 5, .hint 99]),
   (2, .hlist [.href 0])]

/-- The heap left behind by a successful enrichment run on `c5ExHeap`. -/
def c5Result : Heap :=
  (enrichInvitationsHeap 10 c5ExHeap (.href 2)
    [(.hint 2, .hstr "al")] [(.hint 5, .hstr "Movies (ServerA)")] 3).getD []

/-- Witness for C5: on the concrete heap the enrichment succeeds, yet
the original invitation record at address 0 is untouched and the whole
original payload reads back unchanged. -/
theorem c5_enrichment_preserves_input_witness :
    heapClosedBelow c5ExHeap 3 = true ∧
    enrichInvitationsHeap 10 c5ExHeap (.href 2)
      [(.hint 2, .hstr "al")] [(.hint 5, .hstr "Movies (ServerA)")] 3 =
      some c5Result ∧
    hLookup c5Result 0 = hLookup c5ExHeap 0 ∧
    readTree 5 c5Result (.href 2) = readTree 5 c5ExHeap (.href 2) :=
  ⟨by decide, by decide,
   (c5_enrichment_preserves_input 10 c5ExHeap (.href 2)
      [(.hint 2, .hstr "al")] [(.hint 5, .hstr "Movies (ServerA)")] 3 c5Result
      5 (.href 0) (by decide) (by decide) (by decide)).1 0 (by decide),
   (c5_enrichment_preserves_input 10 c5ExHeap (.href 2)
      [(.hint 2, .hstr "al")] [(.hint 5, .hstr "Movies (ServerA)")] 3 c5Result
      5 (.href 2) (by decide) (by decide) (by decide)).2⟩
